import Mathlib

/-!
Verification development for the Power BI schema-extraction core
(`app/services/tmdl_parser.py`, `app/services/pbix_parser.py`,
`debug_app.py` alias `app/services/alternative_parser.py`,
`app/services/schema_manager.py`).

The Python code drives everything through `re` scans over file text and
`json`-decoded dictionaries.  The embedding below reproduces those scans
character-for-character (including the greedy/lazy backtracking behaviour of
the concrete patterns used by the source) over `List Char`, and models JSON
documents with an inductive `JVal` type.  Scanners that restart at a computed
position take an explicit fuel argument (callers pass `length + 1`, which
bounds the number of restarts) so that every definition reduces by `rfl`.
-/

namespace PbiNl

/-- Python's ASCII whitespace, as matched by `\s` and `str.strip()`. -/
def isPyWs (c : Char) : Bool :=
  c = ' ' || c = '\t' || c = '\n' || c = '\r' || c = '\x0b' || c = '\x0c'

/-- `[A-Za-z0-9_]`, the identifier character class of the source's patterns. -/
def isIdentChar (c : Char) : Bool :=
  ('a' ≤ c && c ≤ 'z') || ('A' ≤ c && c ≤ 'Z') || ('0' ≤ c && c ≤ '9') || c = '_'

/-- Python `str.strip()` on a character list. -/
def stripWs (cs : List Char) : List Char :=
  ((cs.dropWhile isPyWs).reverse.dropWhile isPyWs).reverse

/-- Python `str.strip("'")`: remove every leading and trailing apostrophe. -/
def stripQuote (cs : List Char) : List Char :=
  ((cs.dropWhile (· = '\'')).reverse.dropWhile (· = '\'')).reverse

/-- Python `str.lower()` (ASCII). -/
def lowerL (cs : List Char) : List Char := cs.map Char.toLower

/-- Python `str.split(sep)` for a single-character separator. -/
def splitOnChar (sep : Char) : List Char → List (List Char)
  | [] => [[]]
  | c :: cs =>
    let r := splitOnChar sep cs
    if c = sep then [] :: r
    else
      match r with
      | [] => [[c]]
      | h :: t => (c :: h) :: t

/-- Python `str.split(sep, 1)`: split once at the first occurrence. -/
def splitOnce (sep : Char) (cs : List Char) : List Char × List Char :=
  (cs.takeWhile (· ≠ sep), (cs.dropWhile (· ≠ sep)).drop 1)

/-- Substring test (`pat in s` for Python strings). -/
def hasSub (pat : List Char) : List Char → Bool
  | [] => pat.isEmpty
  | c :: cs => pat.isPrefixOf (c :: cs) || hasSub pat cs

/-- Python `str.split('\n')`. -/
def splitLines (cs : List Char) : List (List Char) := splitOnChar '\n' cs

/-- Python `str.endswith` (kernel-reducible replacement for
`String.endsWith`). -/
def pyEndsWith (s : String) (pat : String) : Bool :=
  pat.toList.isSuffixOf s.toList

/-- `str.replace(pat, "")` (used by the source for `".tmdl"` removal);
fuel bounds the number of characters examined. -/
def replaceAllF (pat : List Char) : Nat → List Char → List Char
  | 0, s => s
  | fuel + 1, s =>
    match s with
    | [] => []
    | c :: cs =>
      if pat.isPrefixOf (c :: cs) ∧ ¬ pat.isEmpty then
        replaceAllF pat fuel ((c :: cs).drop pat.length)
      else c :: replaceAllF pat fuel cs

/-- `"x.tmdl" ↦ "x"`: the `file_name.replace(".tmdl", "")` step. -/
def dropTmdlExt (s : String) : String :=
  (replaceAllF ".tmdl".toList (s.toList.length + 1) s.toList).asString

/-- Insertion-ordered Python-dict assignment `d[k] = v`. -/
def pyDictSet {α : Type} (d : List (String × α)) (k : String) (v : α) :
    List (String × α) :=
  if d.any (fun p => p.1 = k) then
    d.map (fun p => if p.1 = k then (k, v) else p)
  else d ++ [(k, v)]

/-- Match `\s*([^\n]+)` at the head of `s`, with Python's backtracking: the
greedy `\s*` gives characters back one at a time until `[^\n]+` can take at
least one character.  Returns the capture and the suffix after the match. -/
def matchWsValue (s : List Char) : Option (List Char × List Char) :=
  let w := s.takeWhile isPyWs
  let r := s.drop w.length
  match r with
  | c :: _ =>
    if c = '\n' then
      match w.reverse.dropWhile (· = '\n') with
      | [] => none
      | d :: _ => some ([d], (w.reverse.takeWhile (· = '\n')).reverse ++ r)
    else some (r.takeWhile (· ≠ '\n'), r.dropWhile (· ≠ '\n'))
  | [] =>
    match w.reverse.dropWhile (· = '\n') with
    | [] => none
    | d :: _ => some ([d], (w.reverse.takeWhile (· = '\n')).reverse ++ r)

/-- `re.search(key + r'\s*([^\n]+)', s)`, returning group 1: scan left to
right for an occurrence of the literal `key` whose tail admits a value. -/
def searchKV (key : List Char) : List Char → Option (List Char)
  | [] => none
  | c :: cs =>
    if key.isPrefixOf (c :: cs) then
      match matchWsValue ((c :: cs).drop key.length) with
      | some (v, _) => some v
      | none => searchKV key cs
    else searchKV key cs

/-- `re.search(kw + r'([^\n]+)', s)` (no `\s*`): first occurrence of the
literal `kw` followed by a non-empty rest-of-line. -/
def searchKwLine (kw : List Char) : List Char → Option (List Char)
  | [] => none
  | c :: cs =>
    if kw.isPrefixOf (c :: cs) then
      let g := ((c :: cs).drop kw.length).takeWhile (· ≠ '\n')
      if g.isEmpty then searchKwLine kw cs else some g
    else searchKwLine kw cs

/-- `re.findall(kw + r'([^\n]+)', s)` (used for `ref table` lines). -/
def kwLineAllF (kw : List Char) : Nat → List Char → List (List Char)
  | 0, _ => []
  | fuel + 1, s =>
    match s with
    | [] => []
    | _ :: rest =>
      if kw.isPrefixOf s then
        let r := s.drop kw.length
        let g := r.takeWhile (· ≠ '\n')
        if g.isEmpty then kwLineAllF kw fuel rest
        else g :: kwLineAllF kw fuel (r.dropWhile (· ≠ '\n'))
      else kwLineAllF kw fuel rest

/-- The lazy body group `([\s\S]*?)` of the block patterns: consume characters
until the suffix satisfies the lookahead `stop`, or `$` matches (end of input,
or just before a final newline).  Returns (consumed, remaining). -/
def lazyBody (stop : List Char → Bool) : List Char → List Char × List Char
  | [] => ([], [])
  | c :: cs =>
    if stop (c :: cs) || (decide (c = '\n') && cs.isEmpty) then ([], c :: cs)
    else (c :: (lazyBody stop cs).1, (lazyBody stop cs).2)

/-- `re.findall(kw + r'([^\n]+)([\s\S]*?)(?=...|$)', s)`: the block scan used
for `column`, `measure` and `partition` declarations.  `kw` includes the
trailing space of the pattern. -/
def blockScanF (kw : List Char) (stop : List Char → Bool) :
    Nat → List Char → List (List Char × List Char)
  | 0, _ => []
  | fuel + 1, s =>
    match s with
    | [] => []
    | _ :: rest =>
      if kw.isPrefixOf s then
        let r := s.drop kw.length
        let g1 := r.takeWhile (· ≠ '\n')
        if g1.isEmpty then blockScanF kw stop fuel rest
        else
          let lb := lazyBody stop (r.dropWhile (· ≠ '\n'))
          (g1, lb.1) :: blockScanF kw stop fuel lb.2
      else blockScanF kw stop fuel rest

/-- Lookahead alternative `annotation\s`: the literal word followed by one
whitespace character. -/
def annWsAt (s : List Char) : Bool :=
  "annotation".toList.isPrefixOf s &&
    match s.drop 10 with
    | c :: _ => isPyWs c
    | [] => false

/-- Lookahead of the `column` block pattern: `(?=column|measure|partition|annotation\s|$)`. -/
def colStop (s : List Char) : Bool :=
  "column".toList.isPrefixOf s || "measure".toList.isPrefixOf s ||
  "partition".toList.isPrefixOf s || annWsAt s

/-- Lookahead of the `measure` block pattern (same alternatives). -/
def measStop (s : List Char) : Bool :=
  "measure".toList.isPrefixOf s || "column".toList.isPrefixOf s ||
  "partition".toList.isPrefixOf s || annWsAt s

/-- Lookahead of the `partition` block pattern (same alternatives). -/
def partStop (s : List Char) : Bool :=
  "partition".toList.isPrefixOf s || "column".toList.isPrefixOf s ||
  "measure".toList.isPrefixOf s || annWsAt s

/-- Lookahead of the relationship block pattern: `(?=relationship|$)`. -/
def relStop (s : List Char) : Bool :=
  "relationship".toList.isPrefixOf s

/-- Backtracking of group 1 in
`relationship ([^\n]+)([^a-zA-Z0-9_][\s\S]*?)(?=relationship|$)`: the largest
`k ≥ 1` such that the character after the first `k` line characters exists and
is outside `[A-Za-z0-9_]`. -/
def relG1Len (full : List Char) : Nat → Option Nat
  | 0 => none
  | k + 1 =>
    match full.drop (k + 1) with
    | d :: _ => if isIdentChar d then relG1Len full k else some (k + 1)
    | [] => relG1Len full k

/-- `re.findall(r'relationship ([^\n]+)([^a-zA-Z0-9_][\s\S]*?)(?=relationship|$)', s)`. -/
def relBlocksF : Nat → List Char → List (List Char × List Char)
  | 0, _ => []
  | fuel + 1, s =>
    match s with
    | [] => []
    | _ :: rest =>
      if "relationship ".toList.isPrefixOf s then
        let r := s.drop 13
        let line := r.takeWhile (· ≠ '\n')
        let after := r.dropWhile (· ≠ '\n')
        match relG1Len (line ++ after) line.length with
        | some k =>
          match (line ++ after).drop k with
          | d :: tl =>
            let lb := lazyBody relStop tl
            (line.take k, d :: lb.1) :: relBlocksF fuel lb.2
          | [] => relBlocksF fuel rest
        | none => relBlocksF fuel rest
      else relBlocksF fuel rest

/-- Backtracking tail of `annotation ([^\s]+)\s*=\s*([^\n]+)`: the key group
`[^\s]+` gives back characters from its greedy maximum until a `=` (after
optional whitespace) follows; the value reuses `matchWsValue`. -/
def annTryLen (tok rest : List Char) :
    Nat → Option (List Char × List Char × List Char)
  | 0 => none
  | k + 1 =>
    let mid := tok.drop (k + 1) ++ rest
    match mid.dropWhile isPyWs with
    | '=' :: r2 =>
      match matchWsValue r2 with
      | some (v, rem) => some (tok.take (k + 1), v, rem)
      | none => annTryLen tok rest k
    | _ => annTryLen tok rest k

/-- One match attempt of the annotation pattern at a suffix just after the
literal `annotation `. -/
def matchAnnRest (s : List Char) : Option (List Char × List Char × List Char) :=
  let tok := s.takeWhile (fun c => !(isPyWs c))
  annTryLen tok (s.drop tok.length) tok.length

/-- `re.findall(r'annotation ([^\s]+)\s*=\s*([^\n]+)', s)`. -/
def annPairsF : Nat → List Char → List (List Char × List Char)
  | 0, _ => []
  | fuel + 1, s =>
    match s with
    | [] => []
    | _ :: rest =>
      if "annotation ".toList.isPrefixOf s then
        match matchAnnRest (s.drop 11) with
        | some (k, v, rem) => (k, v) :: annPairsF fuel rem
        | none => annPairsF fuel rest
      else annPairsF fuel rest

/-- Lazy capture up to a literal closing pattern: `([\s\S]*?)pat`. -/
def splitAtSub (pat : List Char) : List Char → Option (List Char × List Char)
  | [] => if pat.isEmpty then some ([], []) else none
  | c :: cs =>
    if pat.isPrefixOf (c :: cs) then some ([], (c :: cs).drop pat.length)
    else
      match splitAtSub pat cs with
      | some (a, b) => some (c :: a, b)
      | none => none

/-- Tail of `re.search(r'source\s*=\s*```([\s\S]*?)```', s)` after the literal
`source`. -/
def fencedAt (s : List Char) : Option (List Char) :=
  match s.dropWhile isPyWs with
  | '=' :: r2 =>
    let r3 := r2.dropWhile isPyWs
    if "```".toList.isPrefixOf r3 then
      (splitAtSub "```".toList (r3.drop 3)).map (·.1)
    else none
  | _ => none

/-- `re.search(r'source\s*=\s*```([\s\S]*?)```', s)`, group 1. -/
def searchFenced : List Char → Option (List Char)
  | [] => none
  | c :: cs =>
    if "source".toList.isPrefixOf (c :: cs) then
      match fencedAt ((c :: cs).drop 6) with
      | some v => some v
      | none => searchFenced cs
    else searchFenced cs

/-! ## TMDL parser (`app/services/tmdl_parser.py`, class `TMDLParser`) -/

/-- `group(1).strip()` as a `String`. -/
def strVal (cs : List Char) : String := (stripWs cs).asString

/-- `searchKV` followed by `.strip()`, with a default for a failed search. -/
def searchStr (key : String) (body : List Char) (dflt : String) : String :=
  match searchKV key.toList body with
  | some v => strVal v
  | none => dflt

/-- A parsed `column` block (the dictionary built in `parse_table_file`;
every key is always present, so plain `String` fields). -/
structure TmdlColumn where
  name : String
  dataType : String
  formatString : String
  lineageTag : String
  summarizeBy : String
  annots : List (String × String)
deriving Repr, DecidableEq

/-- A parsed `measure` block. -/
structure TmdlMeasure where
  name : String
  expression : String
  formatString : String
  lineageTag : String
  annots : List (String × String)
deriving Repr, DecidableEq

/-- A parsed `partition` block. -/
structure TmdlPart where
  name : String
  mode : String
  source : String
deriving Repr, DecidableEq

/-- The dictionary returned by `parse_table_file`. -/
structure TmdlTable where
  name : String
  columns : List TmdlColumn
  measures : List TmdlMeasure
  parts : List TmdlPart
  annots : List (String × String)
deriving Repr, DecidableEq

/-- The dictionary built per block in `parse_relationships_file`.
`joinOnDateBehavior` is `"datePartOnly"` or Python `None` (modelled `none`);
`toCardinality` is only added when the key matches. -/
structure TmdlRelationship where
  id : String
  fromTable : String
  fromColumn : String
  toTable : String
  toColumn : String
  isActive : Bool
  crossFilteringBehavior : String
  joinOnDateBehavior : Option String
  toCardinality : Option String
deriving Repr, DecidableEq

/-- The dictionary returned by `parse_model_file`. -/
structure TmdlModelInfo where
  culture : String
  sourceQueryCulture : String
  tables : List String
  annots : List (String × String)
deriving Repr, DecidableEq

/-- The `annotations` dictionary accumulation:
`d[key.strip()] = value.strip()` over the findall result. -/
def annDict (ps : List (List Char × List Char)) : List (String × String) :=
  ps.foldl (fun d p => pyDictSet d (strVal p.1) (strVal p.2)) []

/-- Column blocks of a table file:
`re.findall(r'column ([^\n]+)([\s\S]*?)(?=column|measure|partition|annotation\s|$)', content)`. -/
def column_blocks (cs : List Char) : List (List Char × List Char) :=
  blockScanF "column ".toList colStop (cs.length + 1) cs

/-- Measure blocks of a table file. -/
def measure_blocks (cs : List Char) : List (List Char × List Char) :=
  blockScanF "measure ".toList measStop (cs.length + 1) cs

/-- Partition blocks of a table file. -/
def part_blocks (cs : List Char) : List (List Char × List Char) :=
  blockScanF "partition ".toList partStop (cs.length + 1) cs

/-- `re.findall(r'annotation ([^\s]+)\s*=\s*([^\n]+)', s)`. -/
def annPairs (cs : List Char) : List (List Char × List Char) :=
  annPairsF (cs.length + 1) cs

/-- The per-column body of `parse_table_file`. -/
def parse_column_block (nameRaw body : List Char) : TmdlColumn :=
  { name := strVal nameRaw
  , dataType := searchStr "dataType:" body ""
  , formatString := searchStr "formatString:" body ""
  , lineageTag := searchStr "lineageTag:" body ""
  , summarizeBy := searchStr "summarizeBy:" body "none"
  , annots := annDict (annPairs body) }

/-- The expression-line filter of `parse_table_file`: keep each stripped,
non-empty body line that does not start with `formatString:`, `lineageTag:`
or `annotation`. -/
def exprLines (body : List Char) : List String :=
  ((splitLines body).map stripWs).filterMap fun line =>
    if ¬ line.isEmpty ∧ ¬ "formatString:".toList.isPrefixOf line ∧
        ¬ "lineageTag:".toList.isPrefixOf line ∧
        ¬ "annotation".toList.isPrefixOf line then
      some line.asString
    else none

/-- The per-measure body of `parse_table_file`. -/
def parse_measure_block (nameRaw body : List Char) : TmdlMeasure :=
  let base :=
    if nameRaw.contains '=' then
      let p := splitOnce '=' nameRaw
      (strVal p.1, String.intercalate "\n" (strVal p.2 :: exprLines body))
    else
      (strVal nameRaw, String.intercalate "\n" (exprLines body))
  { name := base.1
  , expression := base.2
  , formatString := searchStr "formatString:" body ""
  , lineageTag := searchStr "lineageTag:" body ""
  , annots := annDict (annPairs body) }

/-- The per-partition body of `parse_table_file`. -/
def parse_part_block (nameRaw body : List Char) : TmdlPart :=
  { name := strVal nameRaw
  , mode := searchStr "mode:" body ""
  , source :=
      match searchFenced body with
      | some v => strVal v
      | none => "" }

/-- `parse_table_file`, acting on the file content; `none` models a file
whose read raised (the `except` branch returns the initialized dictionary). -/
def parse_table_file : Option String → TmdlTable
  | none =>
    { name := "", columns := [], measures := [], parts := [], annots := [] }
  | some content =>
    let cs := content.toList
    { name :=
        match searchKwLine "table ".toList cs with
        | some v => strVal v
        | none => ""
    , columns := (column_blocks cs).map fun p => parse_column_block p.1 p.2
    , measures := (measure_blocks cs).map fun p => parse_measure_block p.1 p.2
    , parts := (part_blocks cs).map fun p => parse_part_block p.1 p.2
    , annots := annDict (annPairs cs) }

/-- Endpoint decomposition of a `fromColumn:`/`toColumn:` value: the
stripped value is split on every `'.'`, and the two halves are assigned
(with surrounding quotes stripped) only when the split yields exactly two
parts; otherwise both fields keep their initialized `""`. -/
def relEndpoint (v? : Option (List Char)) : String × String :=
  match v? with
  | some v =>
    match splitOnChar '.' (stripWs v) with
    | [a, b] => ((stripQuote a).asString, (stripQuote b).asString)
    | _ => ("", "")
  | none => ("", "")

/-- The per-block body of `parse_relationships_file`: endpoints by splitting
the matched value on `'.'` (tails are kept only when the split yields exactly
two parts), `isActive` as a case-insensitive `"true"` test defaulting to
true, and `toCardinality` only when its key matches. -/
def parse_rel_block (idRaw body : List Char) : TmdlRelationship :=
  let fromPair := relEndpoint (searchKV "fromColumn:".toList body)
  let toPair := relEndpoint (searchKV "toColumn:".toList body)
  { id := strVal idRaw
  , fromTable := fromPair.1
  , fromColumn := fromPair.2
  , toTable := toPair.1
  , toColumn := toPair.2
  , isActive :=
      match searchKV "isActive:".toList body with
      | some v => (lowerL (stripWs v)).asString = "true"
      | none => true
  , crossFilteringBehavior := "automatic"
  , joinOnDateBehavior :=
      if hasSub "joinOnDateBehavior".toList body then some "datePartOnly"
      else none
  , toCardinality :=
      match searchKV "toCardinality:".toList body with
      | some v => some (strVal v)
      | none => none }

/-- `parse_relationships_file`; `none` models a read failure (the `except`
branch returns the empty list built so far). -/
def parse_relationships_file : Option String → List TmdlRelationship
  | none => []
  | some content =>
    let cs := content.toList
    (relBlocksF (cs.length + 1) cs).map fun p => parse_rel_block p.1 p.2

/-- `parse_model_file`; `none` models a read failure (the `except` branch
returns the initialized dictionary). -/
def parse_model_file : Option String → TmdlModelInfo
  | none => { culture := "", sourceQueryCulture := "", tables := [], annots := [] }
  | some content =>
    let cs := content.toList
    { culture := searchStr "culture:" cs ""
    , sourceQueryCulture := searchStr "sourceQueryCulture:" cs ""
    , tables := (kwLineAllF "ref table ".toList (cs.length + 1) cs).map strVal
    , annots := annDict (annPairs cs) }

/-- The file-system surface `parse_project` touches: `os.path.isdir` on the
base directory, `os.path.exists` on candidate paths, file reads (`none`
models an `OSError`), and `os.listdir` on the tables directory. -/
structure TmdlFs where
  isDir : Bool
  pathExists : String → Bool
  read : String → Option String
  listDir : String → List String

/-- The dictionary returned by `parse_project`.  `model = none` models the
initial empty dictionary `{}` (kept when no model file is found); the tables
dictionary is insertion-ordered. -/
structure TmdlProject where
  model : Option TmdlModelInfo
  tables : List (String × TmdlTable)
  relationships : List TmdlRelationship
deriving Repr

/-- The `model.tmdl` step of `parse_project`: root location first, then the
`definition/` fallback; `none` models the untouched initial `{}`. -/
def modelPartOf (fs : TmdlFs) (base : String) : Option TmdlModelInfo :=
  if fs.pathExists (base ++ "/model.tmdl") then
    some (parse_model_file (fs.read (base ++ "/model.tmdl")))
  else if fs.pathExists (base ++ "/definition/model.tmdl") then
    some (parse_model_file (fs.read (base ++ "/definition/model.tmdl")))
  else none

/-- The `relationships.tmdl` step of `parse_project`. -/
def relsPartOf (fs : TmdlFs) (base : String) : List TmdlRelationship :=
  if fs.pathExists (base ++ "/relationships.tmdl") then
    parse_relationships_file (fs.read (base ++ "/relationships.tmdl"))
  else if fs.pathExists (base ++ "/definition/relationships.tmdl") then
    parse_relationships_file
      (fs.read (base ++ "/definition/relationships.tmdl"))
  else []

/-- The tables-directory resolution of `parse_project`. -/
def tablesDirOf (fs : TmdlFs) (base : String) : Option String :=
  if fs.pathExists (base ++ "/tables") then some (base ++ "/tables")
  else if fs.pathExists (base ++ "/definition/tables") then
    some (base ++ "/definition/tables")
  else none

/-- The per-table-file loop of `parse_project`. -/
def tablesPartOf (fs : TmdlFs) (base : String) : List (String × TmdlTable) :=
  match tablesDirOf fs base with
  | none => []
  | some d =>
    ((fs.listDir d).filter (fun f => pyEndsWith f ".tmdl")).foldl
      (fun acc f =>
        pyDictSet acc (dropTmdlExt f)
          (parse_table_file (fs.read (d ++ "/" ++ f))))
      []

/-- `parse_project` over the file-system model, rooted at `base`; the three
parts are computed by three independent sequential steps, exactly as the
three `self.*` assignments in the source. -/
def parse_project (fs : TmdlFs) (base : String) : TmdlProject :=
  if ¬ fs.isDir then { model := none, tables := [], relationships := [] }
  else
    { model := modelPartOf fs base
    , tables := tablesPartOf fs base
    , relationships := relsPartOf fs base }

/-! ## Clean schema (`generate_clean_json`) -/

/-- A column of the clean schema. -/
structure CleanColumn where
  name : String
  dataType : String
  summarizeBy : String
deriving Repr, DecidableEq

/-- A table of the clean schema: name and columns only. -/
structure CleanTable where
  name : String
  columns : List CleanColumn
deriving Repr, DecidableEq

/-- A measure of the clean schema, tagged with its owning table. -/
structure CleanMeasure where
  name : String
  expression : String
  table : String
  formatString : String
deriving Repr, DecidableEq

/-- A relationship of the clean schema; `toCardinality` is only added when it
was present in the parsed relationship. -/
structure CleanRelationship where
  fromTable : String
  fromColumn : String
  toTable : String
  toColumn : String
  isActive : Bool
  toCardinality : Option String
deriving Repr, DecidableEq

/-- The clean schema shape. -/
structure CleanSchema where
  tables : List CleanTable
  relationships : List CleanRelationship
  measures : List CleanMeasure
deriving Repr, DecidableEq

/-- `generate_clean_json`, as a function of the parsed state
(`self.tables_info`, `self.relationships`). -/
def generate_clean_json (tablesInfo : List (String × TmdlTable))
    (rels : List TmdlRelationship) : CleanSchema :=
  let step := tablesInfo.foldl
    (fun (acc : List CleanTable × List CleanMeasure) kv =>
      let t := kv.2
      ( acc.1 ++
          [{ name := t.name
           , columns := t.columns.map fun c =>
               { name := c.name, dataType := c.dataType
               , summarizeBy := c.summarizeBy } }]
      , acc.2 ++ t.measures.map fun m =>
          { name := m.name, expression := m.expression, table := t.name
          , formatString := m.formatString } ))
    ([], [])
  { tables := step.1
  , measures := step.2
  , relationships := rels.map fun r =>
      { fromTable := r.fromTable, fromColumn := r.fromColumn
      , toTable := r.toTable, toColumn := r.toColumn
      , isActive := r.isActive, toCardinality := r.toCardinality } }

/-! ## JSON documents and Python dictionary semantics

PBIX entries are consumed through `json.loads`; the inductive `JVal` models
decoded documents (JSON numbers are modelled as integers — the extraction
code never computes with them).  Operations that can raise a Python
exception (`TypeError`, `KeyError`, `AttributeError`) return `Option`,
`none` meaning "raised". -/

/-- A decoded JSON document / Python value. -/
inductive JVal where
  | null
  | bool (b : Bool)
  | num (n : Int)
  | str (s : String)
  | arr (elems : List JVal)
  | obj (fields : List (String × JVal))
deriving Repr

/-- Python `==` on decoded values, with fuel for the nesting depth (Python's
own decoder refuses documents nested deeper than its recursion limit).
Dictionaries compare by key set and per-key value equality. -/
def jEqF : Nat → JVal → JVal → Bool
  | 0, _, _ => false
  | fuel + 1, a, b =>
    match a, b with
    | .null, .null => true
    | .bool x, .bool y => x == y
    | .bool x, .num n => (if x then (1 : Int) else 0) == n
    | .num n, .bool y => n == (if y then (1 : Int) else 0)
    | .num x, .num y => x == y
    | .str x, .str y => x == y
    | .arr xs, .arr ys =>
      xs.length == ys.length && (xs.zip ys).all (fun p => jEqF fuel p.1 p.2)
    | .obj xs, .obj ys =>
      xs.length == ys.length &&
        xs.all (fun kv =>
          match ys.find? (fun kv2 => kv2.1 == kv.1) with
          | some kv2 => jEqF fuel kv.2 kv2.2
          | none => false)
    | _, _ => false

/-- Python `==` at the decoder's depth bound. -/
def jEq (a b : JVal) : Bool := jEqF 1000 a b

/-- First-match dictionary lookup. -/
def jLook (kvs : List (String × JVal)) (k : String) : Option JVal :=
  (kvs.find? (fun kv => kv.1 = k)).map (·.2)

/-- Python `k in v` (`none` = raised: membership is only defined for
dictionaries, lists and strings). -/
def pyIn (k : String) : JVal → Option Bool
  | .obj kvs => some (jLook kvs k).isSome
  | .arr xs => some (xs.any (fun x => jEq x (.str k)))
  | .str s => some (hasSub k.toList s.toList)
  | _ => none

/-- Python `v[k]` with a string key (`none` = raised). -/
def pyIndex (v : JVal) (k : String) : Option JVal :=
  match v with
  | .obj kvs => jLook kvs k
  | _ => none

/-- Python `v.get(k, d)` (`none` = raised `AttributeError`). -/
def pyGet (v : JVal) (k : String) (d : JVal) : Option JVal :=
  match v with
  | .obj kvs => some ((jLook kvs k).getD d)
  | _ => none

/-- Python `for x in v` (`none` = raised); dictionaries iterate their keys,
strings their characters. -/
def pyIter : JVal → Option (List JVal)
  | .arr xs => some xs
  | .obj kvs => some (kvs.map (fun kv => .str kv.1))
  | .str s => some (s.toList.map (fun c => .str (String.mk [c])))
  | _ => none

/-- Python `v.items()` (`none` = raised). -/
def pyItems : JVal → Option (List (String × JVal))
  | .obj kvs => some kvs
  | _ => none

/-- Python truthiness of a decoded value. -/
def pyTruthy : JVal → Bool
  | .null => false
  | .bool b => b
  | .num n => decide (n ≠ 0)
  | .str s => decide (s ≠ "")
  | .arr xs => ¬ xs.isEmpty
  | .obj kvs => ¬ kvs.isEmpty

/-- Keys of an object (empty for other values). -/
def jKeys : JVal → List String
  | .obj kvs => kvs.map (·.1)
  | _ => []

/-- Key-presence test on an object. -/
def jHasKey (v : JVal) (k : String) : Bool :=
  match v with
  | .obj kvs => kvs.any (fun p => p.1 = k)
  | _ => false

/-- Null test. -/
def jIsNull : JVal → Bool
  | .null => true
  | _ => false

/-! `json.loads` applied to an embedded `config` string (visual containers
sometimes carry their configuration as a JSON-encoded string).  A standard
recursive-descent reader; integers only and no `\u` escapes — the container
configurations the extractor consumes never need them. -/

/-- JSON structural whitespace. -/
def jsonWs (c : Char) : Bool := c = ' ' || c = '\t' || c = '\n' || c = '\r'

/-- Body of a JSON string after the opening quote. -/
def jsonStringBody : Nat → List Char → Option (List Char × List Char)
  | 0, _ => none
  | fuel + 1, s =>
    match s with
    | '"' :: r => some ([], r)
    | '\\' :: e :: r =>
      let c? : Option Char :=
        match e with
        | '"' => some '"'
        | '\\' => some '\\'
        | '/' => some '/'
        | 'n' => some '\n'
        | 't' => some '\t'
        | 'r' => some '\r'
        | 'b' => some '\x08'
        | 'f' => some '\x0c'
        | _ => none
      match c? with
      | some c => (jsonStringBody fuel r).map (fun p => (c :: p.1, p.2))
      | none => none
    | c :: r => (jsonStringBody fuel r).map (fun p => (c :: p.1, p.2))
    | [] => none

/-- Decimal digits to a natural number. -/
def digitsToNat (ds : List Char) : Nat :=
  ds.foldl (fun n c => 10 * n + (c.toNat - 48)) 0

mutual

/-- One JSON value at the head of the input. -/
def jsonValF : Nat → List Char → Option (JVal × List Char)
  | 0, _ => none
  | fuel + 1, s =>
    match s.dropWhile jsonWs with
    | '{' :: r =>
      (match (r.dropWhile jsonWs) with
       | '}' :: r2 => some (.obj [], r2)
       | _ => (jsonMembersF fuel r).map (fun p => (.obj p.1, p.2)))
    | '[' :: r =>
      (match (r.dropWhile jsonWs) with
       | ']' :: r2 => some (.arr [], r2)
       | _ => (jsonItemsF fuel r).map (fun p => (.arr p.1, p.2)))
    | '"' :: r => (jsonStringBody (r.length + 1) r).map
        (fun p => (.str p.1.asString, p.2))
    | '-' :: r =>
      let ds := r.takeWhile (fun c => '0' ≤ c && c ≤ '9')
      if ds.isEmpty then none
      else some (.num (-(digitsToNat ds : Int)), r.drop ds.length)
    | c :: r =>
      if '0' ≤ c ∧ c ≤ '9' then
        let ds := (c :: r).takeWhile (fun c2 => '0' ≤ c2 && c2 ≤ '9')
        some (.num (digitsToNat ds : Int), (c :: r).drop ds.length)
      else if "true".toList.isPrefixOf (c :: r) then
        some (.bool true, (c :: r).drop 4)
      else if "false".toList.isPrefixOf (c :: r) then
        some (.bool false, (c :: r).drop 5)
      else if "null".toList.isPrefixOf (c :: r) then
        some (.null, (c :: r).drop 4)
      else none
    | [] => none

/-- Members of a JSON object after `{`. -/
def jsonMembersF : Nat → List Char → Option (List (String × JVal) × List Char)
  | 0, _ => none
  | fuel + 1, s =>
    match s.dropWhile jsonWs with
    | '"' :: r =>
      match jsonStringBody (r.length + 1) r with
      | none => none
      | some (k, r2) =>
        match r2.dropWhile jsonWs with
        | ':' :: r3 =>
          match jsonValF fuel r3 with
          | none => none
          | some (v, r4) =>
            match r4.dropWhile jsonWs with
            | ',' :: r5 =>
              (jsonMembersF fuel r5).map
                (fun p => ((k.asString, v) :: p.1, p.2))
            | '}' :: r5 => some ([(k.asString, v)], r5)
            | _ => none
        | _ => none
    | _ => none

/-- Items of a JSON array after `[`. -/
def jsonItemsF : Nat → List Char → Option (List JVal × List Char)
  | 0, _ => none
  | fuel + 1, s =>
    match jsonValF fuel s with
    | none => none
    | some (v, r) =>
      match r.dropWhile jsonWs with
      | ',' :: r2 => (jsonItemsF fuel r2).map (fun p => (v :: p.1, p.2))
      | ']' :: r2 => some ([v], r2)
      | _ => none

end

/-- `json.loads` on an embedded configuration string. -/
def jsonParse (s : String) : Option JVal :=
  match jsonValF (s.toList.length + 1) s.toList with
  | some (v, rest) => if (rest.dropWhile jsonWs).isEmpty then some v else none
  | none => none

/-! ## PBIX container model

An already-opened zip archive is a named list of entries.  An entry's raw
bytes are abstracted by their three observable outcomes: the strict UTF-8
decode (`none` models a raised `UnicodeDecodeError`), the `json.loads`
outcome on the decoded text (`none` models a raised `JSONDecodeError`), and
the permissive `decode('utf-8', errors='ignore')` text, which never raises.
Failure to open the package itself is fatal in both extractors and outside
the claims below, which all start from a valid archive. -/

/-- One archive entry's observable content. -/
structure EntryData where
  decoded : Option String
  jsonOf : Option JVal
  textIgnore : String

/-- An opened PBIX package. -/
abbrev Archive := List (String × EntryData)

/-- `zip_ref.namelist()`. -/
def fileList (a : Archive) : List String := a.map (·.1)

/-- `zip_ref.open(f)`. -/
def openEntry (a : Archive) (f : String) : Option EntryData :=
  (a.find? (fun e => e.1 = f)).map (·.2)

/-- A column dictionary built by a PBIX strategy. -/
structure PbixColumn where
  name : JVal
  dataType : JVal
deriving Repr

/-- A measure dictionary built by a PBIX strategy (kept nested in its
table's dictionary). -/
structure PbixMeasure where
  name : JVal
  expression : JVal
deriving Repr

/-- A `table_info` dictionary. -/
structure PbixTable where
  name : JVal
  columns : List PbixColumn
  measures : List PbixMeasure
deriving Repr

/-- A relationship dictionary built by a PBIX strategy (exactly the four
endpoint keys). -/
structure PbixRel where
  fromTable : JVal
  fromColumn : JVal
  toTable : JVal
  toColumn : JVal
deriving Repr

/-- One `{role, field}` pair of a visualization. -/
structure VizField where
  role : String
  field : JVal
deriving Repr

/-- A `viz_info` dictionary. -/
structure PbixViz where
  vtype : JVal
  fields : List VizField
deriving Repr

/-- The shared `metadata` dictionary. -/
structure PbixMeta where
  tables : List PbixTable
  relationships : List PbixRel
  visualizations : List PbixViz
deriving Repr

/-- The initial `metadata` structure. -/
def emptyMeta : PbixMeta := { tables := [], relationships := [], visualizations := [] }

/-- A strategy body raising mid-loop keeps the elements appended so far:
`Except` carries the partial list on the error path. -/
def recover {α : Type} : Except α α → α
  | .ok x => x
  | .error x => x

/-- The per-table loop of the schema strategy: build `table_info` from one
element of `model.tables` (`none` = raised, dropping this table). -/
def schemaTableInfo (t : JVal) : Option PbixTable := do
  let name ← pyGet t "name" (.str "")
  let hasCols ← pyIn "columns" t
  let cols ←
    if hasCols then do
      let cv ← pyIndex t "columns"
      let elems ← pyIter cv
      elems.foldlM
        (fun acc c => do
          let n ← pyGet c "name" (.str "")
          let d ← pyGet c "dataType" (.str "")
          pure (acc ++ [({ name := n, dataType := d } : PbixColumn)]))
        ([] : List PbixColumn)
    else pure []
  let hasMeas ← pyIn "measures" t
  let meas ←
    if hasMeas then do
      let mv ← pyIndex t "measures"
      let elems ← pyIter mv
      elems.foldlM
        (fun acc mm => do
          let n ← pyGet mm "name" (.str "")
          let ex ← pyGet mm "expression" (.str "")
          pure (acc ++ [({ name := n, expression := ex } : PbixMeasure)]))
        ([] : List PbixMeasure)
    else pure []
  pure { name := name, columns := cols, measures := meas }

/-- Tables appended by the schema strategy from a decoded schema document
(`model.tables`); the error branch carries the tables appended before a
raise. -/
def schemaTablesE (v : JVal) : Except (List PbixTable) (List PbixTable) :=
  match pyIn "model" v with
  | none => .error []
  | some false => .ok []
  | some true =>
    match pyIndex v "model" with
    | none => .error []
    | some mv =>
      match pyIn "tables" mv with
      | none => .error []
      | some false => .ok []
      | some true =>
        match pyIndex mv "tables" with
        | none => .error []
        | some tv =>
          match pyIter tv with
          | none => .error []
          | some elems =>
            elems.foldl
              (fun st t =>
                match st with
                | .error e => .error e
                | .ok acc =>
                  match schemaTableInfo t with
                  | some ti => .ok (acc ++ [ti])
                  | none => .error acc)
              (.ok [])

/-- Relationships appended by the schema strategy (`model.relationships`). -/
def schemaRelsE (v : JVal) : Except (List PbixRel) (List PbixRel) :=
  match pyIn "model" v with
  | none => .error []
  | some false => .ok []
  | some true =>
    match pyIndex v "model" with
    | none => .error []
    | some mv =>
      match pyIn "relationships" mv with
      | none => .error []
      | some false => .ok []
      | some true =>
        match pyIndex mv "relationships" with
        | none => .error []
        | some rv =>
          match pyIter rv with
          | none => .error []
          | some elems =>
            elems.foldl
              (fun st r =>
                match st with
                | .error e => .error e
                | .ok acc =>
                  match
                    (do
                      let ft ← pyGet r "fromTable" (.str "")
                      let fc ← pyGet r "fromColumn" (.str "")
                      let tt ← pyGet r "toTable" (.str "")
                      let tc ← pyGet r "toColumn" (.str "")
                      pure ({ fromTable := ft, fromColumn := fc
                            , toTable := tt, toColumn := tc } : PbixRel))
                  with
                  | some rel => .ok (acc ++ [rel])
                  | none => .error acc)
              (.ok [])

/-- `_try_extract_schema` of the alternative (multi-strategy) parser: any
internal exception is caught at the strategy boundary, keeping the partial
appends. -/
def tryExtractSchemaAlt (a : Archive) (m : PbixMeta) : PbixMeta :=
  match (fileList a).filter (fun f => hasSub "DataModelSchema".toList f.toList) with
  | [] => m
  | f :: _ =>
    match openEntry a f with
    | none => m
    | some e =>
      match e.decoded with
      | none => m
      | some _ =>
        match e.jsonOf with
        | none => m
        | some v =>
          match schemaTablesE v with
          | .error ts => { m with tables := m.tables ++ ts }
          | .ok ts =>
            match schemaRelsE v with
            | .error rs =>
              { m with tables := m.tables ++ ts,
                       relationships := m.relationships ++ rs }
            | .ok rs =>
              { m with tables := m.tables ++ ts,
                       relationships := m.relationships ++ rs }

/-- Character class `['"\s:=]` of the binary-scan patterns. -/
def isKwSep (c : Char) : Bool :=
  c = '\'' || c = '"' || isPyWs c || c = ':' || c = '='

/-- `re.findall(alt + r'[\x27"\s:=]+([A-Za-z0-9_]+)', s)` for a list of
literal alternatives (used with `Table|TABLE|table` and `visualType`). -/
def kwClassAllF (kws : List (List Char)) : Nat → List Char → List String
  | 0, _ => []
  | fuel + 1, s =>
    match s with
    | [] => []
    | _ :: rest =>
      match kws.find? (fun k => k.isPrefixOf s) with
      | some k =>
        let r := s.drop k.length
        let seps := r.takeWhile isKwSep
        if seps.isEmpty then kwClassAllF kws fuel rest
        else
          let r2 := r.drop seps.length
          let ident := r2.takeWhile isIdentChar
          if ident.isEmpty then kwClassAllF kws fuel rest
          else ident.asString :: kwClassAllF kws fuel (r2.drop ident.length)
      | none => kwClassAllF kws fuel rest

/-- Character class `[\[\.\s]` of the per-table column pattern. -/
def isColSep (c : Char) : Bool := c = '[' || c = '.' || isPyWs c

/-- `re.findall(re.escape(tname) + r'[\[\.\s]+([A-Za-z0-9_]+)', s)`. -/
def colForAllF (tname : List Char) : Nat → List Char → List String
  | 0, _ => []
  | fuel + 1, s =>
    match s with
    | [] => []
    | _ :: rest =>
      if tname.isPrefixOf s ∧ ¬ tname.isEmpty then
        let r := s.drop tname.length
        let seps := r.takeWhile isColSep
        if seps.isEmpty then colForAllF tname fuel rest
        else
          let r2 := r.drop seps.length
          let ident := r2.takeWhile isIdentChar
          if ident.isEmpty then colForAllF tname fuel rest
          else ident.asString :: colForAllF tname fuel (r2.drop ident.length)
      else colForAllF tname fuel rest

/-- Match `([A-Za-z0-9_]+)\[([A-Za-z0-9_]+)\]` at the head of the input. -/
def matchIdentBr (s : List Char) : Option (String × String × List Char) :=
  let g1 := s.takeWhile isIdentChar
  if g1.isEmpty then none
  else
    match s.drop g1.length with
    | '[' :: r2 =>
      let g2 := r2.takeWhile isIdentChar
      if g2.isEmpty then none
      else
        match r2.drop g2.length with
        | ']' :: r3 => some (g1.asString, g2.asString, r3)
        | _ => none
    | _ => none

/-- The lazy gap `.*?` (newline-blocking) up to a second `ident[ident]`. -/
def lazyGapF : Nat → List Char → Option (String × String × List Char)
  | 0, _ => none
  | fuel + 1, s =>
    match matchIdentBr s with
    | some r => some r
    | none =>
      match s with
      | [] => none
      | c :: cs => if c = '\n' then none else lazyGapF fuel cs

/-- `re.findall(r'([A-Za-z0-9_]+)\[([A-Za-z0-9_]+)\].*?([A-Za-z0-9_]+)\[([A-Za-z0-9_]+)\]', s)`. -/
def relQuadsAllF : Nat → List Char → List (String × String × String × String)
  | 0, _ => []
  | fuel + 1, s =>
    match s with
    | [] => []
    | _ :: rest =>
      match matchIdentBr s with
      | some (t1, c1, r3) =>
        match lazyGapF (r3.length + 1) r3 with
        | some (t2, c2, r6) => (t1, c1, t2, c2) :: relQuadsAllF fuel r6
        | none => relQuadsAllF fuel rest
      | none => relQuadsAllF fuel rest

/-- CPython `set(...)` iteration order is hash-based; only membership is
observable through the claims, so the model fixes first-occurrence order. -/
def dedupFirst (l : List String) : List String :=
  l.foldl (fun acc x => if acc.contains x then acc else acc ++ [x]) []

/-- Per-name step of the binary-scan table loop: gap-fill only when the
name is long enough and not already present (exact match). -/
def dmTableStep (text : List Char) (acc : PbixMeta) (tn : String) : PbixMeta :=
  if tn.length > 2 then
    if ¬ acc.tables.any (fun t => jEq t.name (.str tn)) then
      let colMatches := dedupFirst (colForAllF tn.toList (text.length + 1) text)
      { acc with tables := acc.tables ++
          [{ name := .str tn
           , columns := (colMatches.filter (fun c => c.length > 1)).map
               (fun c => { name := .str c, dataType := .str "unknown" })
           , measures := [] }] }
    else acc
  else acc

/-- Per-quadruple step of the binary-scan relationship loop: append unless
the exact endpoint 4-tuple is already present. -/
def dmRelStep (acc : PbixMeta) (q : String × String × String × String) :
    PbixMeta :=
  let r : PbixRel :=
    { fromTable := .str q.1, fromColumn := .str q.2.1
    , toTable := .str q.2.2.1, toColumn := .str q.2.2.2 }
  if ¬ acc.relationships.any
      (fun r2 => jEq r2.fromTable r.fromTable &&
        jEq r2.fromColumn r.fromColumn && jEq r2.toTable r.toTable &&
        jEq r2.toColumn r.toColumn) then
    { acc with relationships := acc.relationships ++ [r] }
  else acc

/-- `_try_extract_from_datamodel`: permissive decode of the binary entry,
pattern scans, gap-filling appends only for names not already present. -/
def tryExtractDataModelAlt (a : Archive) (m : PbixMeta) : PbixMeta :=
  if (fileList a).contains "DataModel" then
    match openEntry a "DataModel" with
    | none => m
    | some e =>
      let text := e.textIgnore.toList
      let tnames := dedupFirst
        (kwClassAllF ["Table".toList, "TABLE".toList, "table".toList]
          (text.length + 1) text)
      (relQuadsAllF (text.length + 1) text).foldl dmRelStep
        (tnames.foldl (dmTableStep text) m)
  else m

/-- Columns of one `Tables` element of a Connections document. -/
def connColsOf (t : JVal) : Option (List PbixColumn) := do
  let hasCols ← pyIn "Columns" t
  if hasCols then do
    let cv ← pyIndex t "Columns"
    let cols ← pyIter cv
    cols.foldlM
      (fun acc c => do
        let n ← pyGet c "Name" (.str "")
        let d ← pyGet c "DataType" (.str "unknown")
        pure (acc ++ [({ name := n, dataType := d } : PbixColumn)]))
      ([] : List PbixColumn)
  else pure []

/-- Per-element step of the Connections `Tables` loop. -/
def connTableStep (st : Except PbixMeta PbixMeta) (t : JVal) :
    Except PbixMeta PbixMeta :=
  match st with
  | .error e2 => .error e2
  | .ok acc =>
    match pyGet t "Name" (.str "") with
    | none => .error acc
    | some name =>
      if pyTruthy name ∧ ¬ acc.tables.any (fun tt => jEq tt.name name) then
        match connColsOf t with
        | none => .error acc
        | some cols =>
          .ok { acc with tables := acc.tables ++
            [{ name := name, columns := cols, measures := [] }] }
      else .ok acc

/-- Per-element step of the Connections `Expressions` loop. -/
def connExprStep (st : Except PbixMeta PbixMeta) (ex : JVal) :
    Except PbixMeta PbixMeta :=
  match st with
  | .error e2 => .error e2
  | .ok acc =>
    match pyIn "Name" ex with
    | none => .error acc
    | some false => .ok acc
    | some true =>
      match pyIndex ex "Name" with
      | none => .error acc
      | some name =>
        let stub : PbixTable := { name := name, columns := [], measures := [] }
        if pyTruthy name ∧ ¬ acc.tables.any (fun tt => jEq tt.name name) then
          .ok { acc with tables := acc.tables ++ [stub] }
        else .ok acc

/-- Per-name step of the Connections text fallback. -/
def connFallbackStep (acc : PbixMeta) (tn : String) : PbixMeta :=
  if tn.length > 2 ∧ ¬ acc.tables.any (fun t => jEq t.name (.str tn)) then
    { acc with tables := acc.tables ++
        [{ name := .str tn, columns := [], measures := [] }] }
  else acc

/-- `_try_extract_from_connections`. -/
def tryExtractConnAlt (a : Archive) (m : PbixMeta) : PbixMeta :=
  if (fileList a).contains "Connections" then
    match openEntry a "Connections" with
    | none => m
    | some e =>
      match e.decoded with
      | none => m
      | some _ =>
        match e.jsonOf with
        | some v =>
          match pyIn "Tables" v with
          | none => m
          | some true =>
            (match pyIndex v "Tables" with
             | none => m
             | some tv =>
               match pyIter tv with
               | none => m
               | some elems => recover (elems.foldl connTableStep (.ok m)))
          | some false =>
            match pyIn "Expressions" v with
            | none => m
            | some false => m
            | some true =>
              match pyIndex v "Expressions" with
              | none => m
              | some ev =>
                match pyIter ev with
                | none => m
                | some elems => recover (elems.foldl connExprStep (.ok m))
        | none =>
          -- json.JSONDecodeError branch: the fallback re-reads the already
          -- exhausted stream, so the scanned text is empty.
          let tnames := dedupFirst
            (kwClassAllF ["Table".toList, "TABLE".toList, "table".toList] 1 [])
          tnames.foldl connFallbackStep m
  else m

/-- Projection fields of a `singleVisual`, alternative parser (with the
`isinstance(projections, list)` guard). -/
def vizFieldsOfAlt (sv : JVal) : Option (List VizField) := do
  let hasProj ← pyIn "projections" sv
  if hasProj then do
    let pv ← pyIndex sv "projections"
    let items ← pyItems pv
    items.foldlM
      (fun acc rp =>
        match rp.2 with
        | .arr projs =>
          projs.foldlM
            (fun acc2 p => do
              let hasQ ← pyIn "queryRef" p
              if hasQ then do
                let q ← pyIndex p "queryRef"
                pure (acc2 ++ [({ role := rp.1, field := q } : VizField)])
              else pure acc2)
            acc
        | _ => pure acc)
      ([] : List VizField)
  else pure []

/-- Projection fields, main parser (no list guard: a non-list projection
value raises when iterated). -/
def vizFieldsOfMain (sv : JVal) : Option (List VizField) := do
  let hasProj ← pyIn "projections" sv
  if hasProj then do
    let pv ← pyIndex sv "projections"
    let items ← pyItems pv
    items.foldlM
      (fun acc rp => do
        let projs ← pyIter rp.2
        projs.foldlM
          (fun acc2 p => do
            let hasQ ← pyIn "queryRef" p
            if hasQ then do
              let q ← pyIndex p "queryRef"
              pure (acc2 ++ [({ role := rp.1, field := q } : VizField)])
            else pure acc2)
          acc)
      ([] : List VizField)
  else pure []

/-- `_process_visual_container`, parameterized by the projection handler
(the only difference between the two parsers). -/
def processVisualContainer (fieldsOf : JVal → Option (List VizField))
    (c : JVal) (vs : List PbixViz) : Except (List PbixViz) (List PbixViz) :=
  match pyIn "config" c with
  | none => .error vs
  | some false => .ok vs
  | some true =>
    match pyIndex c "config" with
    | none => .error vs
    | some cfg0 =>
      let cfg? : Option JVal :=
        match cfg0 with
        | .str s => jsonParse s
        | _ => some cfg0
      match cfg? with
      | none => .ok vs
      | some cfg =>
        match pyIn "singleVisual" cfg with
        | none => .error vs
        | some false => .ok vs
        | some true =>
          match pyIndex cfg "singleVisual" with
          | none => .error vs
          | some sv =>
            match pyGet sv "visualType" (.str "unknown") with
            | none => .error vs
            | some vt =>
              match fieldsOf sv with
              | none => .error vs
              | some fs => .ok (vs ++ [{ vtype := vt, fields := fs }])

/-- The `visualContainers` loop of one section (or of a flat layout). -/
def containersFold (fieldsOf : JVal → Option (List VizField))
    (cs : List JVal) (vs : List PbixViz) : Except (List PbixViz) (List PbixViz) :=
  cs.foldl
    (fun st c =>
      match st with
      | .error e => .error e
      | .ok acc => processVisualContainer fieldsOf c acc)
    (.ok vs)

/-- The `sections` loop of a layout document. -/
def sectionsFold (fieldsOf : JVal → Option (List VizField))
    (secs : List JVal) (vs : List PbixViz) : Except (List PbixViz) (List PbixViz) :=
  secs.foldl
    (fun st sec =>
      match st with
      | .error e => .error e
      | .ok acc =>
        match pyIn "visualContainers" sec with
        | none => .error acc
        | some false => .ok acc
        | some true =>
          match pyIndex sec "visualContainers" with
          | none => .error acc
          | some cv =>
            match pyIter cv with
            | none => .error acc
            | some cs => containersFold fieldsOf cs acc)
    (.ok vs)

/-- One decoded layout document, alternative parser (`sections` walk with a
flat `visualContainers` fallback). -/
def layoutDocAlt (v : JVal) (vs : List PbixViz) :
    Except (List PbixViz) (List PbixViz) :=
  match pyIn "sections" v with
  | none => .error vs
  | some true =>
    (match pyIndex v "sections" with
     | none => .error vs
     | some sv =>
       match pyIter sv with
       | none => .error vs
       | some secs => sectionsFold vizFieldsOfAlt secs vs)
  | some false =>
    match pyIn "visualContainers" v with
    | none => .error vs
    | some false => .ok vs
    | some true =>
      match pyIndex v "visualContainers" with
      | none => .error vs
      | some cv =>
        match pyIter cv with
        | none => .error vs
        | some cs => containersFold vizFieldsOfAlt cs vs

/-- Per-token step of the layout text fallback. -/
def layoutFallbackStep (ac : PbixMeta) (vt : String) : PbixMeta :=
  if vt ≠ "" ∧ (lowerL vt.toList).asString ∉ ["null", "undefined"] then
    { ac with visualizations := ac.visualizations ++
        [{ vtype := .str vt, fields := [] }] }
  else ac

/-- Per-file step of `_try_extract_from_layout`. -/
def layoutFileStepAlt (a : Archive) (acc : PbixMeta) (f : String) : PbixMeta :=
  match openEntry a f with
  | none => acc
  | some e =>
    match e.decoded with
    | none => acc
    | some _ =>
      match e.jsonOf with
      | some v =>
        { acc with visualizations := recover (layoutDocAlt v acc.visualizations) }
      | none =>
        let vts := kwClassAllF ["visualType".toList] 1 []
        vts.foldl layoutFallbackStep acc

/-- The layout file list: standard layout entries plus the non-standard
bare `Report/Layout` when present. -/
def layoutFilesOf (a : Archive) : List String :=
  let lfs := (fileList a).filter
    (fun f => hasSub "Layout".toList f.toList && pyEndsWith f ".json")
  if (fileList a).contains "Report/Layout" then lfs ++ ["Report/Layout"]
  else lfs

/-- `_try_extract_from_layout`: every layout-named entry is processed under
its own exception handler; a JSON decode failure falls back to scanning the
re-read (hence empty) text for `visualType` tokens. -/
def tryExtractLayoutAlt (a : Archive) (m : PbixMeta) : PbixMeta :=
  if (layoutFilesOf a).isEmpty then m
  else (layoutFilesOf a).foldl (layoutFileStepAlt a) m

/-- `extract_pbix_metadata` of `debug_app.py` (the module's own header names
it `app/services/alternative_parser.py`): four unconditional best-effort
strategies over one shared metadata structure. -/
def extract_pbix_metadata_alt (a : Archive) : PbixMeta :=
  tryExtractLayoutAlt a
    (tryExtractConnAlt a
      (tryExtractDataModelAlt a
        (tryExtractSchemaAlt a emptyMeta)))

/-- The schema step of `app/services/pbix_parser.py`: a `JSONDecodeError`
is logged and re-raised, and every other exception escapes the inner
handler, so any failure here aborts the whole extraction. -/
def schemaPartMain (a : Archive) : Except Unit (List PbixTable × List PbixRel) :=
  match (fileList a).filter (fun f => hasSub "DataModelSchema".toList f.toList) with
  | [] => .ok ([], [])
  | f :: _ =>
    match openEntry a f with
    | none => .error ()
    | some e =>
      match e.decoded with
      | none => .error ()
      | some _ =>
        match e.jsonOf with
        | none => .error ()
        | some v =>
          match schemaTablesE v with
          | .error _ => .error ()
          | .ok ts =>
            match schemaRelsE v with
            | .error _ => .error ()
            | .ok rs => .ok (ts, rs)

/-- One decoded layout document, main parser (`sections` walk only). -/
def layoutDocMain (v : JVal) (vs : List PbixViz) :
    Except (List PbixViz) (List PbixViz) :=
  match pyIn "sections" v with
  | none => .error vs
  | some false => .ok vs
  | some true =>
    match pyIndex v "sections" with
    | none => .error vs
    | some sv =>
      match pyIter sv with
      | none => .error vs
      | some secs => sectionsFold vizFieldsOfMain secs vs

/-- Per-file layout step of the main parser (no text fallback: every
exception inside the file's handler skips the rest of that file). -/
def layoutFileStepMain (a : Archive) (acc : PbixMeta) (f : String) : PbixMeta :=
  match openEntry a f with
  | none => acc
  | some e =>
    match e.decoded with
    | none => acc
    | some _ =>
      match e.jsonOf with
      | none => acc
      | some v =>
        { acc with visualizations := recover (layoutDocMain v acc.visualizations) }

/-- `extract_pbix_metadata` of `app/services/pbix_parser.py`: the schema
step is fatal on malformed input; layout files are processed under
per-file handlers. -/
def extract_pbix_metadata_main (a : Archive) : Except Unit PbixMeta :=
  match schemaPartMain a with
  | .error _ => .error ()
  | .ok (ts, rs) =>
    let m0 : PbixMeta :=
      { tables := ts, relationships := rs, visualizations := [] }
    let lfs := (fileList a).filter
      (fun f => hasSub "Layout".toList f.toList && pyEndsWith f ".json")
    .ok (lfs.foldl (layoutFileStepMain a) m0)

/-! ## Persisted documents and `SchemaManager` -/

/-- The `annotations` mapping as a JSON object. -/
def annotsToJson (l : List (String × String)) : JVal :=
  .obj (l.map fun p => (p.1, .str p.2))

/-- A PBIX column dictionary as persisted. -/
def pbixColToJson (c : PbixColumn) : JVal :=
  .obj [("name", c.name), ("dataType", c.dataType)]

/-- A PBIX measure dictionary as persisted. -/
def pbixMeasureToJson (m : PbixMeasure) : JVal :=
  .obj [("name", m.name), ("expression", m.expression)]

/-- A PBIX `table_info` dictionary as persisted. -/
def pbixTableToJson (t : PbixTable) : JVal :=
  .obj [("name", t.name)
       , ("columns", .arr (t.columns.map pbixColToJson))
       , ("measures", .arr (t.measures.map pbixMeasureToJson))]

/-- A PBIX relationship dictionary as persisted. -/
def pbixRelToJson (r : PbixRel) : JVal :=
  .obj [("fromTable", r.fromTable), ("fromColumn", r.fromColumn)
       , ("toTable", r.toTable), ("toColumn", r.toColumn)]

/-- A visualization field pair as persisted. -/
def vizFieldToJson (f : VizField) : JVal :=
  .obj [("role", .str f.role), ("field", f.field)]

/-- A visualization dictionary as persisted. -/
def pbixVizToJson (v : PbixViz) : JVal :=
  .obj [("type", v.vtype), ("fields", .arr (v.fields.map vizFieldToJson))]

/-- The PBIX metadata dictionary exactly as `json.dump` writes it. -/
def pbixMetaToJson (m : PbixMeta) : JVal :=
  .obj [("tables", .arr (m.tables.map pbixTableToJson))
       , ("relationships", .arr (m.relationships.map pbixRelToJson))
       , ("visualizations", .arr (m.visualizations.map pbixVizToJson))]

/-- A raw TMDL column dictionary as a JSON object. -/
def tmdlColToJson (c : TmdlColumn) : JVal :=
  .obj [("name", .str c.name), ("dataType", .str c.dataType)
       , ("formatString", .str c.formatString)
       , ("lineageTag", .str c.lineageTag)
       , ("summarizeBy", .str c.summarizeBy)
       , ("annotations", annotsToJson c.annots)]

/-- A raw TMDL measure dictionary as a JSON object. -/
def tmdlMeasureToJson (m : TmdlMeasure) : JVal :=
  .obj [("name", .str m.name), ("expression", .str m.expression)
       , ("formatString", .str m.formatString)
       , ("lineageTag", .str m.lineageTag)
       , ("annotations", annotsToJson m.annots)]

/-- A raw TMDL relationship dictionary as a JSON object: `joinOnDateBehavior`
is always a key (Python `None` becomes JSON `null`); `toCardinality` is a key
exactly when it was assigned. -/
def tmdlRelToJson (r : TmdlRelationship) : JVal :=
  .obj ([("id", .str r.id)
        , ("fromTable", .str r.fromTable), ("fromColumn", .str r.fromColumn)
        , ("toTable", .str r.toTable), ("toColumn", .str r.toColumn)
        , ("isActive", .bool r.isActive)
        , ("crossFilteringBehavior", .str r.crossFilteringBehavior)
        , ("joinOnDateBehavior",
           match r.joinOnDateBehavior with
           | some s => .str s
           | none => .null)] ++
    (match r.toCardinality with
     | some s => [("toCardinality", .str s)]
     | none => []))

/-- A clean-schema column as persisted. -/
def cleanColToJson (c : CleanColumn) : JVal :=
  .obj [("name", .str c.name), ("dataType", .str c.dataType)
       , ("summarizeBy", .str c.summarizeBy)]

/-- A clean-schema table as persisted: name and columns only. -/
def cleanTableToJson (t : CleanTable) : JVal :=
  .obj [("name", .str t.name)
       , ("columns", .arr (t.columns.map cleanColToJson))]

/-- A clean-schema measure as persisted. -/
def cleanMeasureToJson (m : CleanMeasure) : JVal :=
  .obj [("name", .str m.name), ("expression", .str m.expression)
       , ("table", .str m.table), ("formatString", .str m.formatString)]

/-- A clean-schema relationship as persisted. -/
def cleanRelToJson (r : CleanRelationship) : JVal :=
  .obj ([("fromTable", .str r.fromTable), ("fromColumn", .str r.fromColumn)
        , ("toTable", .str r.toTable), ("toColumn", .str r.toColumn)
        , ("isActive", .bool r.isActive)] ++
    (match r.toCardinality with
     | some s => [("toCardinality", .str s)]
     | none => []))

/-- The clean schema exactly as `json.dump` writes it. -/
def cleanSchemaToJson (s : CleanSchema) : JVal :=
  .obj [("tables", .arr (s.tables.map cleanTableToJson))
       , ("relationships", .arr (s.relationships.map cleanRelToJson))
       , ("measures", .arr (s.measures.map cleanMeasureToJson))]

/-- `SchemaManager.extract_from_pbix`: runs the main extractor and persists
its dictionary verbatim; the returned pair is (returned value, persisted
document). -/
def extract_from_pbix (a : Archive) : Except Unit (PbixMeta × JVal) :=
  (extract_pbix_metadata_main a).map (fun m => (m, pbixMetaToJson m))

/-- `SchemaManager.extract_from_tmdl`: parse, build the clean schema,
persist it; the returned pair is (returned value, persisted document). -/
def extract_from_tmdl (fs : TmdlFs) (base : String) : CleanSchema × JVal :=
  let p := parse_project fs base
  let s := generate_clean_json p.tables p.relationships
  (s, cleanSchemaToJson s)

/-- The snapshot store observed by `load_schema`: file name to parse
outcome, `none` modelling an unreadable or malformed document. -/
abbrev SchemaStore := List (String × Option JVal)

/-- `SchemaManager.load_schema`: `None` for a missing file and `None` for a
document whose read or parse raises. -/
def load_schema (store : SchemaStore) (id : String) : Option JVal :=
  match (store.find? (fun p => p.1 = id ++ ".json")).map (·.2) with
  | none => none
  | some none => none
  | some (some v) => some v

/-! ## Supporting lemmas -/

/-- Fold invariant preservation. -/
theorem foldl_invariant {α β : Type} (P : α → Prop) (f : α → β → α)
    (h : ∀ acc x, P acc → P (f acc x)) :
    ∀ (l : List β) (init : α), P init → P (l.foldl f init)
  | [], _, h0 => h0
  | x :: xs, init, h0 => foldl_invariant P f h xs (f init x) (h init x h0)

/-- The lazy body group and its remainder partition the input. -/
theorem lazyBody_append (stop : List Char → Bool) :
    ∀ s, (lazyBody stop s).1 ++ (lazyBody stop s).2 = s
  | [] => rfl
  | c :: cs => by
    unfold lazyBody
    split
    · rfl
    · simpa using lazyBody_append stop cs

/-- No suffix position strictly inside the lazy body satisfies the
lookahead (the group halts at the first position that does). -/
theorem lazyBody_stop_false (stop : List Char → Bool) :
    ∀ (s : List Char) (i : Nat), i < (lazyBody stop s).1.length →
      stop ((lazyBody stop s).1.drop i ++ (lazyBody stop s).2) = false := by
  intro s
  induction s with
  | nil => intro i h; simp [lazyBody] at h
  | cons c cs ih =>
    intro i h
    by_cases hc : (stop (c :: cs) || (decide (c = '\n') && cs.isEmpty)) = true
    · simp [lazyBody, hc] at h
    · have hst : stop (c :: cs) = false := by
        rcases h2 : stop (c :: cs) with _ | _
        · rfl
        · simp [h2] at hc
      simp only [lazyBody, hc, if_false] at h ⊢
      cases i with
      | zero =>
        simpa [List.cons_append, lazyBody_append stop cs] using hst
      | succ j =>
        have h2 : j < (lazyBody stop cs).1.length := by simpa using h
        simpa using ih j h2

/-- `isPrefixOf` is preserved by extending the target on the right. -/
theorem isPrefixOf_append_right {pat l : List Char} (r : List Char)
    (h : pat.isPrefixOf l = true) : pat.isPrefixOf (l ++ r) = true := by
  rw [List.isPrefixOf_iff_prefix] at h ⊢
  exact h.trans (List.prefix_append l r)

/-- A suffix starting with the literal `annotation ` satisfies the
`annotation\s` lookahead alternative. -/
theorem annWsAt_of_ann_space {s : List Char}
    (h : "annotation ".toList.isPrefixOf s = true) : annWsAt s = true := by
  rw [List.isPrefixOf_iff_prefix] at h
  obtain ⟨t, rfl⟩ := h
  rfl

/-- Block bodies produced by the block scan contain no occurrence of
`annotation ` when the scan's lookahead covers `annotation\s`. -/
theorem blockScan_ann_free (kw : List Char) (stop : List Char → Bool)
    (hstop : ∀ s, annWsAt s = true → stop s = true) :
    ∀ (fuel : Nat) (s : List Char) (p : List Char × List Char),
      p ∈ blockScanF kw stop fuel s →
      ∀ i, "annotation ".toList.isPrefixOf (p.2.drop i) = false := by
  intro fuel
  induction fuel with
  | zero => intro s p hp; simp [blockScanF] at hp
  | succ f ih =>
    intro s p hp i
    match s with
    | [] => simp [blockScanF] at hp
    | c :: cs =>
      rw [blockScanF] at hp
      by_cases hkw : kw.isPrefixOf (c :: cs) = true
      · simp only [hkw, if_true] at hp
        by_cases hg : ((c :: cs).drop kw.length).takeWhile (· ≠ '\n') |>.isEmpty
        · simp only [hg, if_true] at hp
          exact ih _ p hp i
        · simp only [hg, Bool.false_eq_true, if_false, List.mem_cons] at hp
          rcases hp with hp | hp
          · subst hp
            by_cases hlen :
                i < (lazyBody stop (((c :: cs).drop kw.length).dropWhile (· ≠ '\n'))).1.length
            · rcases hpre : "annotation ".toList.isPrefixOf
                  ((lazyBody stop (((c :: cs).drop kw.length).dropWhile (· ≠ '\n'))).1.drop i)
                  with _ | _
              · rfl
              · exfalso
                have h1 := isPrefixOf_append_right
                  (lazyBody stop (((c :: cs).drop kw.length).dropWhile (· ≠ '\n'))).2 hpre
                have h2 := annWsAt_of_ann_space h1
                have h3 := hstop _ h2
                have h4 := lazyBody_stop_false stop
                  (((c :: cs).drop kw.length).dropWhile (· ≠ '\n')) i hlen
                rw [h3] at h4
                exact Bool.true_eq_false.mp h4
            · have : ((lazyBody stop
                  (((c :: cs).drop kw.length).dropWhile (· ≠ '\n'))).1.drop i) = [] :=
                List.drop_eq_nil_of_le (Nat.le_of_not_lt hlen)
              rw [this]
              rfl
          · exact ih _ p hp i
      · simp only [hkw, Bool.false_eq_true, if_false] at hp
        exact ih _ p hp i

/-- An input with no occurrence of `annotation ` yields no annotation
pairs. -/
theorem annPairsF_eq_nil :
    ∀ (fuel : Nat) (s : List Char),
      (∀ i, "annotation ".toList.isPrefixOf (s.drop i) = false) →
      annPairsF fuel s = []
  | 0, _, _ => rfl
  | _ + 1, [], _ => rfl
  | fuel + 1, c :: cs, h => by
    have h0 := h 0
    simp only [List.drop_zero] at h0
    rw [annPairsF, h0]
    simp only [Bool.false_eq_true, if_false]
    exact annPairsF_eq_nil fuel cs
      (fun i => by have := h (i + 1); simpa using this)

/-- A negated Bool-coercion hypothesis as a `= false` equation. -/
theorem bool_not_true {b : Bool} (h : ¬ b = true) : b = false := by
  cases b
  · rfl
  · exact absurd rfl h

/-- `(!b) = true` from `b = false`. -/
theorem bool_bnot_of_false {b : Bool} (h : b = false) : (!b) = true := by
  rw [h]; rfl

/-- A false `any` gives falsity at every element. -/
theorem any_false_mem {α : Type} {p : α → Bool} :
    ∀ (l : List α), l.any p = false → ∀ x ∈ l, p x = false
  | [], _, x, hx => absurd hx (List.not_mem_nil x)
  | a :: l, h, x, hx => by
    rw [List.any_cons] at h
    have ha : p a = false := by
      cases hpa : p a
      · rfl
      · rw [hpa] at h; simp at h
    have hl : l.any p = false := by
      cases hpl : l.any p
      · rfl
      · rw [hpl] at h; simp at h
    rcases List.mem_cons.mp hx with rfl | hx2
    · exact ha
    · exact any_false_mem l hl x hx2

/-- The table names of a metadata state. -/
def namesOf (m : PbixMeta) : List JVal := m.tables.map (·.name)

/-- No later name equals (under Python `==`) an earlier one — the sense in
which the extractor's per-strategy guards deduplicate. -/
def namesDistinct : List JVal → Bool
  | [] => true
  | x :: xs => (!(xs.any (fun y => jEq x y))) && namesDistinct xs

/-- Appending a name that the guard compared against every existing entry
preserves distinctness. -/
theorem namesDistinct_append (n : JVal) :
    ∀ (l : List JVal), namesDistinct l = true →
      (∀ x ∈ l, jEq x n = false) →
      namesDistinct (l ++ [n]) = true
  | [], _, _ => by simp [namesDistinct, jEq]
  | x :: xs, hl, hn => by
    rw [namesDistinct, Bool.and_eq_true] at hl
    rw [List.cons_append, namesDistinct, Bool.and_eq_true]
    refine ⟨?_, namesDistinct_append n xs hl.2
      (fun y hy => hn y (List.mem_cons_of_mem x hy))⟩
    have h1 : xs.any (fun y => jEq x y) = false := by
      cases hb : xs.any (fun y => jEq x y)
      · rfl
      · rw [hb] at hl; simp at hl
    apply bool_bnot_of_false
    rw [List.any_append, h1]
    simp only [List.any_cons, List.any_nil, Bool.or_false, Bool.false_or]
    exact hn x (List.mem_cons_self x xs)

/-- The guard `not any(t['name'] == name)` gives exactly the side condition
of `namesDistinct_append`. -/
theorem guard_to_all {ts : List PbixTable} {n : JVal}
    (h : ts.any (fun t => jEq t.name n) = false) :
    ∀ x ∈ ts.map (·.name), jEq x n = false := by
  intro x hx
  rcases List.mem_map.mp hx with ⟨t, ht, rfl⟩
  exact any_false_mem ts h t ht

/-- `dmTableStep` preserves name distinctness. -/
theorem dmTableStep_distinct (text : List Char) (acc : PbixMeta) (tn : String)
    (h : namesDistinct (namesOf acc) = true) :
    namesDistinct (namesOf (dmTableStep text acc tn)) = true := by
  unfold dmTableStep
  split
  · split
    · rename_i hguard
      have hg2 := bool_not_true hguard
      simpa [namesOf] using
        namesDistinct_append (.str tn) (namesOf acc) h (guard_to_all hg2)
    · exact h
  · exact h

/-- `dmRelStep` does not touch the tables. -/
theorem dmRelStep_tables (acc : PbixMeta)
    (q : String × String × String × String) :
    (dmRelStep acc q).tables = acc.tables := by
  unfold dmRelStep
  by_cases hb : (acc.relationships.any fun r2 =>
      jEq r2.fromTable (JVal.str q.1) && jEq r2.fromColumn (JVal.str q.2.1) &&
      jEq r2.toTable (JVal.str q.2.2.1) && jEq r2.toColumn (JVal.str q.2.2.2)) = true
  · simp [hb]
  · simp [hb]

/-- `connTableStep` preserves name distinctness of the recovered state. -/
theorem connTableStep_distinct (st : Except PbixMeta PbixMeta) (t : JVal)
    (h : namesDistinct (namesOf (recover st)) = true) :
    namesDistinct (namesOf (recover (connTableStep st t))) = true := by
  cases st with
  | error e2 => exact h
  | ok acc =>
    have hacc : namesDistinct (namesOf acc) = true := h
    show namesDistinct (namesOf (recover
      (match pyGet t "Name" (.str "") with
       | none => .error acc
       | some name =>
         if pyTruthy name ∧ ¬ acc.tables.any (fun tt => jEq tt.name name) then
           match connColsOf t with
           | none => .error acc
           | some cols =>
             .ok { acc with tables := acc.tables ++
               [{ name := name, columns := cols, measures := [] }] }
         else .ok acc))) = true
    split
    · exact hacc
    · rename_i name heqn
      split
      · rename_i hcond
        split
        · exact hacc
        · have hguard := bool_not_true hcond.2
          simpa [recover, namesOf] using
            namesDistinct_append name (namesOf acc) hacc (guard_to_all hguard)
      · exact hacc

/-- `connExprStep` preserves name distinctness of the recovered state. -/
theorem connExprStep_distinct (st : Except PbixMeta PbixMeta) (ex : JVal)
    (h : namesDistinct (namesOf (recover st)) = true) :
    namesDistinct (namesOf (recover (connExprStep st ex))) = true := by
  cases st with
  | error e2 => exact h
  | ok acc =>
    have hacc : namesDistinct (namesOf acc) = true := h
    show namesDistinct (namesOf (recover
      (match pyIn "Name" ex with
       | none => .error acc
       | some false => .ok acc
       | some true =>
         match pyIndex ex "Name" with
         | none => .error acc
         | some name =>
           let stub : PbixTable := { name := name, columns := [], measures := [] }
           if pyTruthy name ∧ ¬ acc.tables.any (fun tt => jEq tt.name name) then
             .ok { acc with tables := acc.tables ++ [stub] }
           else .ok acc))) = true
    split
    · exact hacc
    · exact hacc
    · split
      · exact hacc
      · rename_i name heqn
        split
        · rename_i hcond
          have hguard := bool_not_true hcond.2
          simpa [recover, namesOf] using
            namesDistinct_append name (namesOf acc) hacc (guard_to_all hguard)
        · exact hacc

/-- `connFallbackStep` preserves name distinctness. -/
theorem connFallbackStep_distinct (acc : PbixMeta) (tn : String)
    (h : namesDistinct (namesOf acc) = true) :
    namesDistinct (namesOf (connFallbackStep acc tn)) = true := by
  unfold connFallbackStep
  split
  · rename_i hcond
    have hguard := bool_not_true hcond.2
    simpa [namesOf] using
      namesDistinct_append (.str tn) (namesOf acc) h (guard_to_all hguard)
  · exact h

/-- The layout fallback only appends visualizations. -/
theorem layoutFallbackStep_frame (ac : PbixMeta) (vt : String) :
    (layoutFallbackStep ac vt).tables = ac.tables ∧
    (layoutFallbackStep ac vt).relationships = ac.relationships := by
  unfold layoutFallbackStep
  split <;> exact ⟨rfl, rfl⟩

/-- A layout file step only changes visualizations. -/
theorem layoutFileStepAlt_frame (a : Archive) (acc : PbixMeta) (f : String) :
    (layoutFileStepAlt a acc f).tables = acc.tables ∧
    (layoutFileStepAlt a acc f).relationships = acc.relationships := by
  unfold layoutFileStepAlt
  split
  · exact ⟨rfl, rfl⟩
  · split
    · exact ⟨rfl, rfl⟩
    · split
      · exact ⟨rfl, rfl⟩
      · refine foldl_invariant
          (fun x => x.tables = acc.tables ∧ x.relationships = acc.relationships)
          layoutFallbackStep ?_ _ acc ⟨rfl, rfl⟩
        intro ac vt h2
        have h3 := layoutFallbackStep_frame ac vt
        exact ⟨h3.1.trans h2.1, h3.2.trans h2.2⟩

/-- The layout strategy never touches tables or relationships. -/
theorem tryExtractLayoutAlt_frame (a : Archive) (m : PbixMeta) :
    (tryExtractLayoutAlt a m).tables = m.tables ∧
    (tryExtractLayoutAlt a m).relationships = m.relationships := by
  unfold tryExtractLayoutAlt
  split
  · exact ⟨rfl, rfl⟩
  · refine foldl_invariant
      (fun x => x.tables = m.tables ∧ x.relationships = m.relationships)
      (layoutFileStepAlt a) ?_ _ m ⟨rfl, rfl⟩
    intro acc f h2
    have h3 := layoutFileStepAlt_frame a acc f
    exact ⟨h3.1.trans h2.1, h3.2.trans h2.2⟩

/-- The binary-scan strategy preserves name distinctness. -/
theorem tryExtractDataModelAlt_distinct (a : Archive) (m : PbixMeta)
    (h : namesDistinct (namesOf m) = true) :
    namesDistinct (namesOf (tryExtractDataModelAlt a m)) = true := by
  unfold tryExtractDataModelAlt
  split
  · split
    · exact h
    · refine foldl_invariant (fun x => namesDistinct (namesOf x) = true)
        dmRelStep ?_ _ _ ?_
      · intro acc q hacc
        have ht := dmRelStep_tables acc q
        simpa [namesOf, ht] using hacc
      · exact foldl_invariant (fun x => namesDistinct (namesOf x) = true)
          (dmTableStep _) (fun acc tn hacc =>
            dmTableStep_distinct _ acc tn hacc) _ m h
  · exact h

/-- The Connections strategy preserves name distinctness. -/
theorem tryExtractConnAlt_distinct (a : Archive) (m : PbixMeta)
    (h : namesDistinct (namesOf m) = true) :
    namesDistinct (namesOf (tryExtractConnAlt a m)) = true := by
  unfold tryExtractConnAlt
  split
  · split
    · exact h
    · split
      · exact h
      · split
        · split
          · exact h
          · split
            · exact h
            · split
              · exact h
              · exact foldl_invariant
                  (fun st => namesDistinct (namesOf (recover st)) = true)
                  connTableStep connTableStep_distinct _ (.ok m) h
          · split
            · exact h
            · exact h
            · split
              · exact h
              · split
                · exact h
                · exact foldl_invariant
                    (fun st => namesDistinct (namesOf (recover st)) = true)
                    connExprStep connExprStep_distinct _ (.ok m) h
        · exact foldl_invariant (fun x => namesDistinct (namesOf x) = true)
            connFallbackStep connFallbackStep_distinct _ m h
  · exact h

/-- A value splitting into other than two parts leaves both endpoint
fields empty. -/
theorem relEndpoint_not_two (v : List Char)
    (h : (splitOnChar '.' (stripWs v)).length ≠ 2) :
    relEndpoint (some v) = ("", "") := by
  rcases e : splitOnChar '.' (stripWs v) with _ | ⟨a, _ | ⟨b, _ | ⟨c, tl⟩⟩⟩
  · simp [relEndpoint, e]
  · simp [relEndpoint, e]
  · exact absurd (by rw [e]; rfl) h
  · simp [relEndpoint, e]

/-- A value splitting into exactly two parts is decomposed with quotes
stripped. -/
theorem relEndpoint_two (v a b : List Char)
    (h : splitOnChar '.' (stripWs v) = [a, b]) :
    relEndpoint (some v) = ((stripQuote a).asString, (stripQuote b).asString) := by
  simp [relEndpoint, h]

/-! ## Claims -/

/-- C10 (confirmed): for every relationship block whose `fromColumn:` value
does not split on `'.'` into exactly two parts, `parse_relationships_file`
silently leaves `fromTable = ""` and `fromColumn = ""` (likewise for the
`toColumn:` value and `toTable`/`toColumn`); the value is decomposed only
when the split yields exactly two parts. -/
theorem C10_rel_split_exactly_two (idRaw body v w : List Char)
    (hv : searchKV "fromColumn:".toList body = some v)
    (hw : searchKV "toColumn:".toList body = some w) :
    ((splitOnChar '.' (stripWs v)).length ≠ 2 →
      (parse_rel_block idRaw body).fromTable = "" ∧
      (parse_rel_block idRaw body).fromColumn = "") ∧
    (∀ a b, splitOnChar '.' (stripWs v) = [a, b] →
      (parse_rel_block idRaw body).fromTable = (stripQuote a).asString ∧
      (parse_rel_block idRaw body).fromColumn = (stripQuote b).asString) ∧
    ((splitOnChar '.' (stripWs w)).length ≠ 2 →
      (parse_rel_block idRaw body).toTable = "" ∧
      (parse_rel_block idRaw body).toColumn = "") ∧
    (∀ a b, splitOnChar '.' (stripWs w) = [a, b] →
      (parse_rel_block idRaw body).toTable = (stripQuote a).asString ∧
      (parse_rel_block idRaw body).toColumn = (stripQuote b).asString) := by
  have hft : (parse_rel_block idRaw body).fromTable =
      (relEndpoint (searchKV "fromColumn:".toList body)).1 := rfl
  have hfc : (parse_rel_block idRaw body).fromColumn =
      (relEndpoint (searchKV "fromColumn:".toList body)).2 := rfl
  have htt : (parse_rel_block idRaw body).toTable =
      (relEndpoint (searchKV "toColumn:".toList body)).1 := rfl
  have htc : (parse_rel_block idRaw body).toColumn =
      (relEndpoint (searchKV "toColumn:".toList body)).2 := rfl
  refine ⟨?_, ?_, ?_, ?_⟩
  · intro h
    rw [hft, hfc, hv, relEndpoint_not_two v h]
    exact ⟨rfl, rfl⟩
  · intro a b h
    rw [hft, hfc, hv, relEndpoint_two v a b h]
    exact ⟨rfl, rfl⟩
  · intro h
    rw [htt, htc, hw, relEndpoint_not_two w h]
    exact ⟨rfl, rfl⟩
  · intro a b h
    rw [htt, htc, hw, relEndpoint_two w a b h]
    exact ⟨rfl, rfl⟩

/-- Witness for C10 at a block whose `fromColumn:` value `Sales.Customer.ID`
has two dots and whose `toColumn:` value has one. -/
theorem C10_rel_split_exactly_two_witness :
    (parse_rel_block "r1".toList
      "\n\tfromColumn: Sales.Customer.ID\n\ttoColumn: Customer.ID\n".toList).fromTable = "" ∧
    (parse_rel_block "r1".toList
      "\n\tfromColumn: Sales.Customer.ID\n\ttoColumn: Customer.ID\n".toList).fromColumn = "" ∧
    (parse_rel_block "r1".toList
      "\n\tfromColumn: Sales.Customer.ID\n\ttoColumn: Customer.ID\n".toList).toTable = "Customer" ∧
    (parse_rel_block "r1".toList
      "\n\tfromColumn: Sales.Customer.ID\n\ttoColumn: Customer.ID\n".toList).toColumn = "ID" := by
  have h := C10_rel_split_exactly_two "r1".toList
    "\n\tfromColumn: Sales.Customer.ID\n\ttoColumn: Customer.ID\n".toList
    "Sales.Customer.ID".toList "Customer.ID".toList (by decide) (by decide)
  have h1 := h.1 (by decide)
  have h2 := h.2.2.2 "Customer".toList "ID".toList (by decide)
  exact ⟨h1.1, h1.2, by rw [h2.1]; rfl, by rw [h2.2]; rfl⟩

/-- C9 (confirmed): `load_schema` returns the parsed document on success
and an absence value (`None`), never an exception, when the snapshot file
is missing or its content is malformed. -/
theorem C9_load_schema_absence (store : SchemaStore) (id : String) :
    (store.find? (fun p => p.1 = id ++ ".json") = none →
      load_schema store id = none) ∧
    (∀ f, store.find? (fun p => p.1 = id ++ ".json") = some (f, none) →
      load_schema store id = none) ∧
    (∀ f v, store.find? (fun p => p.1 = id ++ ".json") = some (f, some v) →
      load_schema store id = some v) := by
  refine ⟨?_, ?_, ?_⟩
  · intro h
    simp [load_schema, h]
  · intro f h
    simp [load_schema, h]
  · intro f v h
    simp [load_schema, h]

/-- Witness for C9 on a store with one good and one malformed snapshot. -/
theorem C9_load_schema_absence_witness :
    load_schema [("good.json", some (.str "x")), ("bad.json", none)] "missing" = none ∧
    load_schema [("good.json", some (.str "x")), ("bad.json", none)] "bad" = none ∧
    load_schema [("good.json", some (.str "x")), ("bad.json", none)] "good" = some (.str "x") :=
  ⟨(C9_load_schema_absence _ "missing").1 rfl,
   (C9_load_schema_absence _ "bad").2.1 "bad.json" rfl,
   (C9_load_schema_absence _ "good").2.2 "good.json" (.str "x") rfl⟩

/-- C8 (confirmed): a missing base directory yields the all-empty result
without raising; for an existing directory, a missing model file, missing
relationships file, missing tables directory, or unreadable file content
each degrades that part to its empty default, and the relationships part
depends only on the relationship files (other parts still parse). -/
theorem C8_parse_project_degrades (fs : TmdlFs) (base : String) :
    (fs.isDir = false →
      parse_project fs base = { model := none, tables := [], relationships := [] }) ∧
    (fs.isDir = true →
      ((fs.pathExists (base ++ "/model.tmdl") = false ∧
        fs.pathExists (base ++ "/definition/model.tmdl") = false) →
        (parse_project fs base).model = none) ∧
      ((fs.pathExists (base ++ "/relationships.tmdl") = false ∧
        fs.pathExists (base ++ "/definition/relationships.tmdl") = false) →
        (parse_project fs base).relationships = []) ∧
      ((fs.pathExists (base ++ "/tables") = false ∧
        fs.pathExists (base ++ "/definition/tables") = false) →
        (parse_project fs base).tables = []) ∧
      ((fs.pathExists (base ++ "/relationships.tmdl") = true ∧
        fs.read (base ++ "/relationships.tmdl") = none) →
        (parse_project fs base).relationships = []) ∧
      ((fs.pathExists (base ++ "/model.tmdl") = true ∧
        fs.read (base ++ "/model.tmdl") = none) →
        (parse_project fs base).model =
          some { culture := "", sourceQueryCulture := "", tables := [], annots := [] }) ∧
      (∀ fs2 : TmdlFs, fs2.isDir = true →
        fs2.pathExists (base ++ "/relationships.tmdl") =
          fs.pathExists (base ++ "/relationships.tmdl") →
        fs2.pathExists (base ++ "/definition/relationships.tmdl") =
          fs.pathExists (base ++ "/definition/relationships.tmdl") →
        fs2.read (base ++ "/relationships.tmdl") =
          fs.read (base ++ "/relationships.tmdl") →
        fs2.read (base ++ "/definition/relationships.tmdl") =
          fs.read (base ++ "/definition/relationships.tmdl") →
        (parse_project fs2 base).relationships =
          (parse_project fs base).relationships)) := by
  constructor
  · intro h
    simp [parse_project, h]
  · intro hdir
    have hproj : parse_project fs base =
        { model := modelPartOf fs base, tables := tablesPartOf fs base
        , relationships := relsPartOf fs base } := by
      simp [parse_project, hdir]
    refine ⟨?_, ?_, ?_, ?_, ?_, ?_⟩
    · intro ⟨h1, h2⟩
      rw [hproj]
      simp [modelPartOf, h1, h2]
    · intro ⟨h1, h2⟩
      rw [hproj]
      simp [relsPartOf, h1, h2]
    · intro ⟨h1, h2⟩
      rw [hproj]
      simp [tablesPartOf, tablesDirOf, h1, h2]
    · intro ⟨h1, h2⟩
      rw [hproj]
      simp [relsPartOf, h1, h2, parse_relationships_file]
    · intro ⟨h1, h2⟩
      rw [hproj]
      simp [modelPartOf, h1, h2, parse_model_file]
    · intro fs2 hdir2 e1 e2 e3 e4
      have hproj2 : parse_project fs2 base =
          { model := modelPartOf fs2 base, tables := tablesPartOf fs2 base
          , relationships := relsPartOf fs2 base } := by
        simp [parse_project, hdir2]
      rw [hproj, hproj2]
      simp only [relsPartOf, e1, e2, e3, e4]

/-- Witness for C8: a missing directory, and an existing directory with an
unreadable relationships file. -/
theorem C8_parse_project_degrades_witness :
    parse_project
      { isDir := false, pathExists := fun _ => false
      , read := fun _ => none, listDir := fun _ => [] } "p" =
      { model := none, tables := [], relationships := [] } ∧
    (parse_project
      { isDir := true, pathExists := fun q => q = "p/relationships.tmdl"
      , read := fun _ => none, listDir := fun _ => [] } "p").relationships = [] ∧
    (parse_project
      { isDir := true, pathExists := fun q => q = "p/relationships.tmdl"
      , read := fun _ => none, listDir := fun _ => [] } "p").model = none ∧
    (parse_project
      { isDir := true, pathExists := fun q => q = "p/relationships.tmdl"
      , read := fun _ => none, listDir := fun _ => [] } "p").tables = [] := by
  refine ⟨(C8_parse_project_degrades _ "p").1 rfl, ?_, ?_, ?_⟩
  · exact ((C8_parse_project_degrades _ "p").2 rfl).2.2.2.1 ⟨by decide, rfl⟩
  · exact ((C8_parse_project_degrades _ "p").2 rfl).1 ⟨by decide, by decide⟩
  · exact ((C8_parse_project_degrades _ "p").2 rfl).2.2.1 ⟨by decide, by decide⟩

/-- Scenario-A project: a tables directory holding one `Sales.tmdl`. -/
def c5SalesContent : String :=
  "table Sales\n\tlineageTag: t1\n\n\tcolumn OrderDate\n\t\tdataType: dateTime\n\n\tcolumn Amount\n\t\tdataType: double\n\n\tmeasure Total Sales = SUM(Sales[Amount])\n\t\tlineageTag: m1\n"

/-- The scenario-A file system. -/
def c5fs : TmdlFs :=
  { isDir := true
  , pathExists := fun q => q = "proj/tables"
  , read := fun q =>
      if q = "proj/tables/Sales.tmdl" then some c5SalesContent else none
  , listDir := fun _ => ["Sales.tmdl"] }

/-- The normalized schema scenario A requires. -/
def c5expected : CleanSchema :=
  { tables := [{ name := "Sales", columns :=
      [{ name := "OrderDate", dataType := "dateTime", summarizeBy := "none" },
       { name := "Amount", dataType := "double", summarizeBy := "none" }] }]
  , relationships := []
  , measures := [{ name := "Total Sales", expression := "SUM(Sales[Amount])"
                 , table := "Sales", formatString := "" }] }

set_option maxRecDepth 100000 in
/-- C5 (confirmed): for every measure declaration whose header line contains
`=`, the parsed name is the (stripped) header text before the first `=` and
the expression is the text after `=` concatenated, in order, with every
subsequent non-empty body line not starting with `formatString:`,
`lineageTag:` or `annotation` (`exprLines`); in particular the scenario-A
TMDL project yields one measure `Total Sales` with expression
`SUM(Sales[Amount])` owned by table `Sales`. -/
theorem C5_measure_header_split :
    (∀ nameRaw body : List Char, nameRaw.contains '=' = true →
      (parse_measure_block nameRaw body).name =
        (stripWs (nameRaw.takeWhile (· ≠ '='))).asString ∧
      (parse_measure_block nameRaw body).expression =
        String.intercalate "\n"
          ((stripWs ((nameRaw.dropWhile (· ≠ '=')).drop 1)).asString ::
            exprLines body)) ∧
    (extract_from_tmdl c5fs "proj").1 = c5expected := by
  constructor
  · intro nameRaw body h
    constructor
    · show (if nameRaw.contains '=' then
          ((strVal (splitOnce '=' nameRaw).1),
            String.intercalate "\n"
              (strVal (splitOnce '=' nameRaw).2 :: exprLines body))
        else
          (strVal nameRaw, String.intercalate "\n" (exprLines body))).1 = _
      rw [h]
      rfl
    · show (if nameRaw.contains '=' then
          ((strVal (splitOnce '=' nameRaw).1),
            String.intercalate "\n"
              (strVal (splitOnce '=' nameRaw).2 :: exprLines body))
        else
          (strVal nameRaw, String.intercalate "\n" (exprLines body))).2 = _
      rw [h]
      rfl
  · rfl

/-- Witness for C5 at the scenario-A measure header. -/
theorem C5_measure_header_split_witness :
    ("Total Sales = SUM(Sales[Amount])".toList.contains '=') = true ∧
    (parse_measure_block ("Total Sales = SUM(Sales[Amount])".toList)
      "\n\t\tlineageTag: m1\n".toList).name =
      (stripWs ("Total Sales = SUM(Sales[Amount])".toList.takeWhile
        (· ≠ '='))).asString ∧
    (parse_measure_block ("Total Sales = SUM(Sales[Amount])".toList)
      "\n\t\tlineageTag: m1\n".toList).expression =
      String.intercalate "\n"
        ((stripWs (("Total Sales = SUM(Sales[Amount])".toList.dropWhile
          (· ≠ '=')).drop 1)).asString ::
          exprLines "\n\t\tlineageTag: m1\n".toList) := by
  have h := C5_measure_header_split.1
    "Total Sales = SUM(Sales[Amount])".toList
    "\n\t\tlineageTag: m1\n".toList (by decide)
  exact ⟨by decide, h.1, h.2⟩

/-- A table file whose table body carries one annotation and whose column
body carries another. -/
def c7content : String :=
  "table T\n\tannotation TA = tv\n\tcolumn A\n\t\tdataType: x\n\t\tannotation S = Auto\n"

/-- C7 counterexample: in `c7content` the pair `S = Auto` sits inside
column `A`'s body, yet the parsed column's mapping is empty and the
table-level mapping holds both pairs — the column-body annotation is not
attached to the column, and the table-level mapping does not contain only
the table's own body's annotations. -/
theorem C7_counterexample :
    ((parse_table_file (some c7content)).columns.map (fun c => c.annots)) =
      [[]] ∧
    (parse_table_file (some c7content)).annots =
      [("TA", "tv"), ("S", "Auto")] :=
  ⟨rfl, rfl⟩

/-- C7 (amended): every `annotation key = value` pair anywhere in a table
file is collected into the table-level mapping; the column- and
measure-level mappings are always empty, because each column/measure block
is cut at the first `annotation` line by the block boundary lookahead. -/
theorem C7_ann_attachment :
    (∀ content : String, ∀ c ∈ (parse_table_file (some content)).columns,
      c.annots = []) ∧
    (∀ content : String, ∀ m ∈ (parse_table_file (some content)).measures,
      m.annots = []) ∧
    (∀ content : String,
      (parse_table_file (some content)).annots =
        annDict (annPairs content.toList)) := by
  have hstopc : ∀ s, annWsAt s = true → colStop s = true := by
    intro s h
    simp [colStop, h]
  have hstopm : ∀ s, annWsAt s = true → measStop s = true := by
    intro s h
    simp [measStop, h]
  refine ⟨?_, ?_, fun _ => rfl⟩
  · intro content c hc
    have hcols : (parse_table_file (some content)).columns =
        (column_blocks content.toList).map
          (fun p => parse_column_block p.1 p.2) := rfl
    rw [hcols] at hc
    obtain ⟨p, hp, rfl⟩ := List.mem_map.mp hc
    have hfree := blockScan_ann_free "column ".toList colStop hstopc _ _ p hp
    show annDict (annPairs p.2) = []
    rw [show annPairs p.2 = annPairsF (p.2.length + 1) p.2 from rfl,
      annPairsF_eq_nil _ _ hfree]
    rfl
  · intro content m hm
    have hmeas : (parse_table_file (some content)).measures =
        (measure_blocks content.toList).map
          (fun p => parse_measure_block p.1 p.2) := rfl
    rw [hmeas] at hm
    obtain ⟨p, hp, rfl⟩ := List.mem_map.mp hm
    have hfree := blockScan_ann_free "measure ".toList measStop hstopm _ _ p hp
    show annDict (annPairs p.2) = []
    rw [show annPairs p.2 = annPairsF (p.2.length + 1) p.2 from rfl,
      annPairsF_eq_nil _ _ hfree]
    rfl

/-- Witness for C7 on `c7content`. -/
theorem C7_ann_attachment_witness :
    ((parse_table_file (some c7content)).columns.all
      (fun c => c.annots.isEmpty)) = true ∧
    ((parse_table_file (some c7content)).measures.all
      (fun m => m.annots.isEmpty)) = true ∧
    (parse_table_file (some c7content)).annots =
      annDict (annPairs c7content.toList) := by
  refine ⟨?_, ?_, C7_ann_attachment.2.2 c7content⟩
  · apply List.all_eq_true.mpr
    intro c hc
    rw [C7_ann_attachment.1 c7content c hc]
    rfl
  · apply List.all_eq_true.mpr
    intro m hm
    rw [C7_ann_attachment.2.1 c7content m hm]
    rfl

/-- A relationships file whose `fromColumn:` value contains two dots
(a column name with an embedded dot). -/
def c6badContent : String :=
  "relationship r1\n\tfromColumn: 'Sales'.'Customer.ID'\n\ttoColumn: Customer.ID\n"

/-- C6 counterexample: splitting on the first `'.'` would give
`fromTable = "Sales"`, but the code splits on every dot, finds three parts
and leaves both endpoint fields empty. -/
theorem C6_counterexample :
    ((parse_relationships_file (some c6badContent)).map
      (fun r => r.fromTable)) = [""] ∧
    ("" : String) ≠ "Sales" :=
  ⟨rfl, by decide⟩

/-- The scenario-B relationships file. -/
def c6goodContent : String :=
  "relationship r1\n\tfromColumn: 'Sales'.'CustomerID'\n\ttoColumn: 'Customer'.'ID'\n\tisActive: true\n\ttoCardinality: many\n"

/-- `toCardinality` appears in the persisted relationship object exactly
when it was captured. -/
theorem tmdlRelToJson_toCardinality (r : TmdlRelationship) :
    jHasKey (tmdlRelToJson r) "toCardinality" = r.toCardinality.isSome := by
  cases h : r.toCardinality <;> simp [tmdlRelToJson, jHasKey, h]

/-- C6 (amended): `fromTable`/`fromColumn` are obtained by splitting the
value of the `fromColumn:` line on `'.'` and stripping surrounding quotes
from each half when the split yields exactly two parts (otherwise both
stay empty — the counterexample's two-dot value forces this restriction);
`isActive` is parsed as a case-insensitive `"true"` test defaulting to
true; `toCardinality` appears in the output exactly when the key is
present; and the scenario-B block yields the stated relationship. -/
theorem C6_rel_block_parsing :
    (∀ idRaw body v, searchKV "fromColumn:".toList body = some v →
      ((splitOnChar '.' (stripWs v)).length ≠ 2 →
        (parse_rel_block idRaw body).fromTable = "" ∧
        (parse_rel_block idRaw body).fromColumn = "") ∧
      (∀ a b, splitOnChar '.' (stripWs v) = [a, b] →
        (parse_rel_block idRaw body).fromTable = (stripQuote a).asString ∧
        (parse_rel_block idRaw body).fromColumn = (stripQuote b).asString)) ∧
    (∀ idRaw body v, searchKV "isActive:".toList body = some v →
      (parse_rel_block idRaw body).isActive =
        decide ((lowerL (stripWs v)).asString = "true")) ∧
    (∀ idRaw body, searchKV "isActive:".toList body = none →
      (parse_rel_block idRaw body).isActive = true) ∧
    (∀ idRaw body w, searchKV "toCardinality:".toList body = some w →
      (parse_rel_block idRaw body).toCardinality = some (strVal w) ∧
      jHasKey (tmdlRelToJson (parse_rel_block idRaw body)) "toCardinality" = true) ∧
    (∀ idRaw body, searchKV "toCardinality:".toList body = none →
      (parse_rel_block idRaw body).toCardinality = none ∧
      jHasKey (tmdlRelToJson (parse_rel_block idRaw body)) "toCardinality" = false) ∧
    (generate_clean_json [] (parse_relationships_file (some c6goodContent))).relationships =
      [{ fromTable := "Sales", fromColumn := "CustomerID", toTable := "Customer"
       , toColumn := "ID", isActive := true, toCardinality := some "many" }] := by
  refine ⟨?_, ?_, ?_, ?_, ?_, rfl⟩
  · intro idRaw body v hv
    have hft : (parse_rel_block idRaw body).fromTable =
        (relEndpoint (searchKV "fromColumn:".toList body)).1 := rfl
    have hfc : (parse_rel_block idRaw body).fromColumn =
        (relEndpoint (searchKV "fromColumn:".toList body)).2 := rfl
    constructor
    · intro h
      rw [hft, hfc, hv, relEndpoint_not_two v h]
      exact ⟨rfl, rfl⟩
    · intro a b h
      rw [hft, hfc, hv, relEndpoint_two v a b h]
      exact ⟨rfl, rfl⟩
  · intro idRaw body v hv
    have ha : (parse_rel_block idRaw body).isActive =
        (match searchKV "isActive:".toList body with
         | some v2 => decide ((lowerL (stripWs v2)).asString = "true")
         | none => true) := rfl
    rw [ha, hv]
  · intro idRaw body hv
    have ha : (parse_rel_block idRaw body).isActive =
        (match searchKV "isActive:".toList body with
         | some v2 => decide ((lowerL (stripWs v2)).asString = "true")
         | none => true) := rfl
    rw [ha, hv]
  · intro idRaw body w hw
    have hc : (parse_rel_block idRaw body).toCardinality =
        (match searchKV "toCardinality:".toList body with
         | some v2 => some (strVal v2)
         | none => none) := rfl
    have hc2 : (parse_rel_block idRaw body).toCardinality = some (strVal w) := by
      rw [hc, hw]
    refine ⟨hc2, ?_⟩
    rw [tmdlRelToJson_toCardinality, hc2]
    rfl
  · intro idRaw body hw
    have hc : (parse_rel_block idRaw body).toCardinality =
        (match searchKV "toCardinality:".toList body with
         | some v2 => some (strVal v2)
         | none => none) := rfl
    have hc2 : (parse_rel_block idRaw body).toCardinality = none := by
      rw [hc, hw]
    refine ⟨hc2, ?_⟩
    rw [tmdlRelToJson_toCardinality, hc2]
    rfl

/-- Witness for C6 at the scenario-B block body. -/
theorem C6_rel_block_parsing_witness :
    (parse_rel_block "r1".toList
      "\n\tfromColumn: 'Sales'.'CustomerID'\n\ttoColumn: 'Customer'.'ID'\n\tisActive: true\n\ttoCardinality: many\n".toList).fromTable =
      "Sales" ∧
    (parse_rel_block "r1".toList
      "\n\tfromColumn: 'Sales'.'CustomerID'\n\ttoColumn: 'Customer'.'ID'\n\tisActive: true\n\ttoCardinality: many\n".toList).toCardinality =
      some "many" := by
  have h1 := (C6_rel_block_parsing.1 "r1".toList
    "\n\tfromColumn: 'Sales'.'CustomerID'\n\ttoColumn: 'Customer'.'ID'\n\tisActive: true\n\ttoCardinality: many\n".toList
    "'Sales'.'CustomerID'".toList (by decide)).2
    "'Sales'".toList "'CustomerID'".toList (by decide)
  have h2 := (C6_rel_block_parsing.2.2.2.1 "r1".toList
    "\n\tfromColumn: 'Sales'.'CustomerID'\n\ttoColumn: 'Customer'.'ID'\n\tisActive: true\n\ttoCardinality: many\n".toList
    "many".toList (by decide)).1
  exact ⟨by rw [h1.1]; rfl, by rw [h2]; rfl⟩

/-- A PBIX package whose schema document defines one table with one
measure. -/
def c2arch : Archive :=
  [("DataModelSchema",
    { decoded := some "{...}"
    , jsonOf := some (.obj [("model", .obj [("tables", .arr
        [.obj [("name", .str "Sales"),
               ("measures", .arr [.obj [("name", .str "M"),
                                        ("expression", .str "1+1")]])]])])])
    , textIgnore := "" })]

/-- C2 counterexample: for a PBIX extraction the persisted document has no
top-level `measures` key at all, while the table record still carries its
measure nested inside — measures are not lifted for the pbix source. -/
theorem C2_counterexample :
    (extract_from_pbix c2arch).toOption.map
      (fun p => jHasKey p.2 "measures") = some false ∧
    (extract_from_pbix c2arch).toOption.map
      (fun p => p.1.tables.map (fun t => t.measures.length)) = some [1] ∧
    (extract_from_pbix c2arch).toOption.map
      (fun p => p.1.tables.map (fun t => jHasKey (pbixTableToJson t) "measures")) =
      some [true] :=
  ⟨rfl, rfl, rfl⟩

/-- C2 (amended): for TMDL extractions the clean schema lifts measures to a
flat top-level array, each tagged with the name of a table record of the
same schema, and clean table records carry no measures; for PBIX
extractions the returned and persisted dictionary has no top-level
`measures` key (the extractor's raw shape, with measures nested per table,
is persisted verbatim). -/
theorem C2_measures_flat :
    (∀ (ti : List (String × TmdlTable)) (rels : List TmdlRelationship),
      ∀ m ∈ (generate_clean_json ti rels).measures,
        ∃ t ∈ (generate_clean_json ti rels).tables, m.table = t.name) ∧
    (∀ t : CleanTable, jKeys (cleanTableToJson t) = ["name", "columns"]) ∧
    (∀ (a : Archive) (p : PbixMeta × JVal), extract_from_pbix a = Except.ok p →
      jHasKey p.2 "measures" = false) := by
  refine ⟨?_, fun t => rfl, ?_⟩
  · intro ti rels m hm
    have hP := foldl_invariant
      (fun (acc : List CleanTable × List CleanMeasure) =>
        ∀ m2 ∈ acc.2, ∃ t ∈ acc.1, m2.table = t.name)
      (fun acc kv =>
        ( acc.1 ++
            [{ name := kv.2.name
             , columns := kv.2.columns.map fun c =>
                 { name := c.name, dataType := c.dataType
                 , summarizeBy := c.summarizeBy } }]
        , acc.2 ++ kv.2.measures.map fun m2 =>
            { name := m2.name, expression := m2.expression, table := kv.2.name
            , formatString := m2.formatString } ))
      ?_ ti ([], []) (by intro m2 hm2; exact absurd hm2 (List.not_mem_nil m2))
    · exact hP m hm
    · intro acc kv hacc m2 hm2
      rcases List.mem_append.mp hm2 with hold | hnew
      · obtain ⟨t, ht, he⟩ := hacc m2 hold
        exact ⟨t, List.mem_append_left _ ht, he⟩
      · obtain ⟨m3, _, rfl⟩ := List.mem_map.mp hnew
        refine ⟨_, List.mem_append_right _ (List.mem_singleton.mpr rfl), rfl⟩
  · intro a p h
    cases he : extract_pbix_metadata_main a with
    | error e =>
      rw [extract_from_pbix, he] at h
      exact absurd h (by simp [Except.map])
    | ok x =>
      rw [extract_from_pbix, he] at h
      simp only [Except.map, Except.ok.injEq] at h
      rw [← h]
      rfl

/-- A one-table parsed TMDL state with a single measure. -/
def c2ti : List (String × TmdlTable) :=
  [("Sales",
    { name := "Sales", columns := [], parts := [], annots := [],
      measures := [{ name := "M", expression := "1", formatString := "",
                     lineageTag := "", annots := [] }] })]

/-- Witness for C2 at a one-table TMDL state and the `c2arch` PBIX
extraction. -/
theorem C2_measures_flat_witness :
    ((generate_clean_json c2ti []).measures.map (fun m => m.table)) = ["Sales"] ∧
    jKeys (cleanTableToJson { name := "Sales", columns := [] }) = ["name", "columns"] ∧
    jHasKey ((extract_from_pbix c2arch).toOption.getD (emptyMeta, .null)).2
      "measures" = false := by
  refine ⟨?_, C2_measures_flat.2.1 _, ?_⟩
  · obtain ⟨t, ht, he⟩ := C2_measures_flat.1 c2ti []
      { name := "M", expression := "1", table := "Sales", formatString := "" }
      (by decide)
    exact rfl
  · exact C2_measures_flat.2.2 c2arch _ rfl

/-- A PBIX package whose schema document defines one relationship. -/
def c3arch : Archive :=
  [("DataModelSchema",
    { decoded := some "{...}"
    , jsonOf := some (.obj [("model", .obj [("relationships", .arr
        [.obj [("fromTable", .str "A"), ("fromColumn", .str "B"),
               ("toTable", .str "C"), ("toColumn", .str "D")]])])])
    , textIgnore := "" })]

/-- A relationships file without a `joinOnDateBehavior` key. -/
def c3relContent : String :=
  "relationship r1\n\tfromColumn: A.B\n\ttoColumn: C.D\n"

/-- C3 counterexample: a PBIX-extracted relationship dictionary carries only
the four endpoint keys — `isActive` and `crossFilteringBehavior` are absent
— and a TMDL relationship parsed without `joinOnDateBehavior` carries that
key with value `null`. -/
theorem C3_counterexample :
    (extract_from_pbix c3arch).toOption.map
      (fun p => p.1.relationships.map (fun r => jKeys (pbixRelToJson r))) =
      some [["fromTable", "fromColumn", "toTable", "toColumn"]] ∧
    ((parse_relationships_file (some c3relContent)).map
      (fun r => pyIndex (tmdlRelToJson r) "joinOnDateBehavior")) =
      [some JVal.null] :=
  ⟨rfl, rfl⟩

/-- A relationship parsed without the key carries `joinOnDateBehavior`
as `null` in its dictionary. -/
theorem tmdlRelToJson_joinNull (r : TmdlRelationship)
    (h : r.joinOnDateBehavior = none) :
    pyIndex (tmdlRelToJson r) "joinOnDateBehavior" = some JVal.null := by
  cases hc : r.toCardinality <;>
    simp [tmdlRelToJson, pyIndex, jLook, h, hc, List.find?]

/-- C3 (amended): TMDL columns resolve absent `dataType:`/`summarizeBy:`
lines to `""`/`"none"` and their dictionaries always carry all six keys;
TMDL relationships default `isActive` to true and fix
`crossFilteringBehavior = "automatic"`, but additionally carry a
`joinOnDateBehavior` key that is `null` when absent from the block; PBIX
column dictionaries carry only `name`/`dataType` (no `summarizeBy`) and
PBIX relationship dictionaries only the four endpoint keys (no `isActive`,
no `crossFilteringBehavior`). -/
theorem C3_defaults :
    (∀ n body : List Char,
      jKeys (tmdlColToJson (parse_column_block n body)) =
        ["name", "dataType", "formatString", "lineageTag", "summarizeBy",
         "annotations"] ∧
      (searchKV "dataType:".toList body = none →
        (parse_column_block n body).dataType = "") ∧
      (searchKV "summarizeBy:".toList body = none →
        (parse_column_block n body).summarizeBy = "none")) ∧
    (∀ idRaw body : List Char,
      (searchKV "isActive:".toList body = none →
        (parse_rel_block idRaw body).isActive = true) ∧
      (parse_rel_block idRaw body).crossFilteringBehavior = "automatic" ∧
      (hasSub "joinOnDateBehavior".toList body = false →
        pyIndex (tmdlRelToJson (parse_rel_block idRaw body))
          "joinOnDateBehavior" = some JVal.null)) ∧
    (∀ c : PbixColumn, jKeys (pbixColToJson c) = ["name", "dataType"]) ∧
    (∀ r : PbixRel, jKeys (pbixRelToJson r) =
      ["fromTable", "fromColumn", "toTable", "toColumn"]) := by
  refine ⟨?_, ?_, fun c => rfl, fun r => rfl⟩
  · intro n body
    refine ⟨rfl, ?_, ?_⟩
    · intro h
      show (match searchKV "dataType:".toList body with
            | some v => strVal v
            | none => "") = ""
      rw [h]
    · intro h
      show (match searchKV "summarizeBy:".toList body with
            | some v => strVal v
            | none => "none") = "none"
      rw [h]
  · intro idRaw body
    refine ⟨?_, rfl, ?_⟩
    · intro h
      have ha : (parse_rel_block idRaw body).isActive =
          (match searchKV "isActive:".toList body with
           | some v2 => decide ((lowerL (stripWs v2)).asString = "true")
           | none => true) := rfl
      rw [ha, h]
    · intro h
      apply tmdlRelToJson_joinNull
      show (if hasSub "joinOnDateBehavior".toList body then
          some "datePartOnly" else none) = none
      rw [h]
      rfl

/-- Witness for C3 at a column and a relationship block with no optional
property lines. -/
theorem C3_defaults_witness :
    (parse_column_block "A".toList "\n\tlineageTag: x\n".toList).dataType = "" ∧
    (parse_column_block "A".toList "\n\tlineageTag: x\n".toList).summarizeBy = "none" ∧
    (parse_rel_block "r".toList "\n\tfromColumn: A.B\n".toList).isActive = true ∧
    (parse_rel_block "r".toList "\n\tfromColumn: A.B\n".toList).crossFilteringBehavior =
      "automatic" ∧
    pyIndex (tmdlRelToJson (parse_rel_block "r".toList "\n\tfromColumn: A.B\n".toList))
      "joinOnDateBehavior" = some JVal.null := by
  have hc := C3_defaults.1 "A".toList "\n\tlineageTag: x\n".toList
  have hr := C3_defaults.2.1 "r".toList "\n\tfromColumn: A.B\n".toList
  exact ⟨hc.2.1 (by decide), hc.2.2 (by decide), hr.1 (by decide), hr.2.1,
    hr.2.2 (by decide)⟩

/-- A package whose schema document lists the same table name twice. -/
def c4dupArch : Archive :=
  [("DataModelSchema",
    { decoded := some "x"
    , jsonOf := some (.obj [("model", .obj [("tables", .arr
        [.obj [("name", .str "A")], .obj [("name", .str "A")]])])])
    , textIgnore := "" })]

/-- C4 counterexample: the schema strategy appends every table of its own
input without any dedup check, so a schema document repeating a name yields
two table entries with the same exact name. -/
theorem C4_counterexample :
    ((extract_pbix_metadata_alt c4dupArch).tables.map (fun t => t.name)) =
      [.str "A", .str "A"] ∧
    namesDistinct (namesOf (extract_pbix_metadata_alt c4dupArch)) = false :=
  ⟨rfl, rfl⟩

/-- C4 (amended): across strategies the merge is first-writer-wins — the
binary-scan and Connections strategies skip any table whose exact name is
already present, and the layout strategy never touches tables — so whenever
the schema strategy's own output has pairwise distinct names, the final
tables array has pairwise distinct names; only duplicates within the schema
strategy's own input survive. -/
theorem C4_dedup_across_strategies (a : Archive)
    (h : namesDistinct (namesOf (tryExtractSchemaAlt a emptyMeta)) = true) :
    namesDistinct (namesOf (extract_pbix_metadata_alt a)) = true := by
  unfold extract_pbix_metadata_alt
  have h2 := tryExtractDataModelAlt_distinct a _ h
  have h3 := tryExtractConnAlt_distinct a _ h2
  have hfr : namesOf (tryExtractLayoutAlt a
      (tryExtractConnAlt a (tryExtractDataModelAlt a
        (tryExtractSchemaAlt a emptyMeta)))) =
      namesOf (tryExtractConnAlt a (tryExtractDataModelAlt a
        (tryExtractSchemaAlt a emptyMeta))) := by
    unfold namesOf
    rw [(tryExtractLayoutAlt_frame a _).1]
  rw [hfr]
  exact h3

/-- A package whose schema strategy finds `Sales` and whose binary model
entry would re-discover `Sales` alongside `Customers`. -/
def c4wArch : Archive :=
  [("DataModelSchema",
    { decoded := some "x"
    , jsonOf := some (.obj [("model", .obj [("tables", .arr
        [.obj [("name", .str "Sales")]])])])
    , textIgnore := "" }),
   ("DataModel",
    { decoded := none, jsonOf := none
    , textIgnore := "table Sales table Customers" })]

/-- Witness for C4: the schema strategy's names are distinct, the binary
scan re-discovers `Sales` but only adds `Customers`, and the final names
stay distinct. -/
theorem C4_dedup_across_strategies_witness :
    namesDistinct (namesOf (tryExtractSchemaAlt c4wArch emptyMeta)) = true ∧
    namesDistinct (namesOf (extract_pbix_metadata_alt c4wArch)) = true ∧
    (extract_pbix_metadata_alt c4wArch).tables.map (fun t => t.name) =
      [.str "Sales", .str "Customers"] :=
  ⟨rfl, C4_dedup_across_strategies c4wArch rfl, rfl⟩

/-- Fold congruence along a list. -/
theorem foldl_congr {α β : Type} (f g : α → β → α) :
    ∀ (l : List β), (∀ acc x, x ∈ l → f acc x = g acc x) →
      ∀ init, l.foldl f init = l.foldl g init
  | [], _, _ => rfl
  | x :: xs, h, init => by
    rw [List.foldl_cons, List.foldl_cons, h init x (List.mem_cons_self x xs)]
    exact foldl_congr f g xs
      (fun acc y hy => h acc y (List.mem_cons_of_mem x hy)) _

/-- The scenario-E layout entry: one section, one container, one
`barChart` visual with a `Category → Sales.Region` projection. -/
def c1LayE : EntryData :=
  { decoded := some "{...}"
  , jsonOf := some (.obj [("sections", .arr [.obj [("visualContainers", .arr
      [.obj [("config", .obj [("singleVisual", .obj
        [("visualType", .str "barChart"),
         ("projections", .obj [("Category", .arr
           [.obj [("queryRef", .str "Sales.Region")]])])])])]])]])])
  , textIgnore := "{...}" }

/-- The scenario-E package: a schema entry whose bytes decode but do not
parse as JSON, next to a valid layout entry. -/
def c1arch : Archive :=
  [("DataModelSchema",
    { decoded := some "\x7bbad", jsonOf := none, textIgnore := "\x7bbad" }),
   ("Report/Layout.json", c1LayE)]

/-- C1 counterexample: on the scenario-E package the extractor that
`SchemaManager` actually calls (`app/services/pbix_parser.py`) re-raises
the schema `JSONDecodeError` and aborts, even though the layout entry alone
is valid and productive. -/
theorem C1_counterexample :
    extract_pbix_metadata_main c1arch = Except.error () ∧
    (extract_pbix_metadata_alt [("Report/Layout.json", c1LayE)]).visualizations.length = 1 :=
  ⟨rfl, rfl⟩

/-- C1 (amended): for the multi-strategy extractor of `debug_app.py`, a
schema entry with undecodable JSON contributes nothing and stops nothing:
the extraction equals the extraction of the same package without the schema
entry, and tables and relationships stay empty while the layout strategy
still runs. -/
theorem C1_schema_failure_isolated (lname : String) (eS eL : EntryData)
    (sTxt : String)
    (hdec : eS.decoded = some sTxt) (hbad : eS.jsonOf = none)
    (h1 : lname ≠ "DataModel") (h2 : lname ≠ "Connections")
    (h3 : hasSub "DataModelSchema".toList lname.toList = false) :
    extract_pbix_metadata_alt [("DataModelSchema", eS), (lname, eL)] =
      extract_pbix_metadata_alt [(lname, eL)] ∧
    (extract_pbix_metadata_alt [("DataModelSchema", eS), (lname, eL)]).tables = [] ∧
    (extract_pbix_metadata_alt [("DataModelSchema", eS), (lname, eL)]).relationships = [] := by
  obtain ⟨dec, js, ti⟩ := eS
  dsimp only at hdec hbad
  subst hdec
  subst hbad
  have hne : ("DataModelSchema" : String) ≠ lname := by
    intro hh
    have hT : hasSub "DataModelSchema".toList "DataModelSchema".toList = true := by
      decide
    have h3b := h3
    rw [← hh] at h3b
    rw [h3b] at hT
    exact absurd hT (by decide)
  have e2 : (("DataModel" : String) == lname) = false :=
    beq_eq_false_iff_ne.mpr (fun hh => h1 hh.symm)
  have e3 : (("Connections" : String) == lname) = false :=
    beq_eq_false_iff_ne.mpr (fun hh => h2 hh.symm)
  have hA1 : tryExtractSchemaAlt
      [("DataModelSchema", ⟨some sTxt, none, ti⟩), (lname, eL)]
      emptyMeta = emptyMeta := rfl
  have hB1 : tryExtractSchemaAlt [(lname, eL)] emptyMeta = emptyMeta := by
    have hfil : (fileList [(lname, eL)]).filter
        (fun f => hasSub "DataModelSchema".toList f.toList) = [] := by
      show List.filter _ [lname] = []
      simp only [List.filter_cons]
      rw [h3]
      rfl
    unfold tryExtractSchemaAlt
    rw [hfil]
  have hcA2 : ((fileList [("DataModelSchema", (⟨some sTxt, none, ti⟩ : EntryData)), (lname, eL)]).contains
      "DataModel") = false := by
    simp [fileList, List.contains, List.elem, e2]
  have hcB2 : ((fileList [(lname, eL)]).contains "DataModel") = false := by
    simp [fileList, List.contains, List.elem, e2]
  have hcA3 : ((fileList [("DataModelSchema", (⟨some sTxt, none, ti⟩ : EntryData)), (lname, eL)]).contains
      "Connections") = false := by
    simp [fileList, List.contains, List.elem, e3]
  have hcB3 : ((fileList [(lname, eL)]).contains "Connections") = false := by
    simp [fileList, List.contains, List.elem, e3]
  have hA2 : tryExtractDataModelAlt
      [("DataModelSchema", ⟨some sTxt, none, ti⟩), (lname, eL)]
      emptyMeta = emptyMeta := by
    unfold tryExtractDataModelAlt
    rw [hcA2]
    rfl
  have hB2 : tryExtractDataModelAlt [(lname, eL)] emptyMeta = emptyMeta := by
    unfold tryExtractDataModelAlt
    rw [hcB2]
    rfl
  have hA3 : tryExtractConnAlt
      [("DataModelSchema", ⟨some sTxt, none, ti⟩), (lname, eL)]
      emptyMeta = emptyMeta := by
    unfold tryExtractConnAlt
    rw [hcA3]
    rfl
  have hB3 : tryExtractConnAlt [(lname, eL)] emptyMeta = emptyMeta := by
    unfold tryExtractConnAlt
    rw [hcB3]
    rfl
  have hlfs : layoutFilesOf
      [("DataModelSchema", (⟨some sTxt, none, ti⟩ : EntryData)), (lname, eL)] =
      layoutFilesOf [(lname, eL)] := rfl
  have hopen : ∀ f ∈ layoutFilesOf [(lname, eL)],
      openEntry [("DataModelSchema", (⟨some sTxt, none, ti⟩ : EntryData)), (lname, eL)] f =
        openEntry [(lname, eL)] f := by
    intro f hf
    have hf2 : f = lname ∨ f = "Report/Layout" := by
      simp only [layoutFilesOf] at hf
      split at hf
      · rcases List.mem_append.mp hf with hf3 | hf3
        · exact Or.inl (List.eq_of_mem_singleton
            (List.mem_of_mem_filter hf3))
        · exact Or.inr (List.eq_of_mem_singleton hf3)
      · exact Or.inl (List.eq_of_mem_singleton (List.mem_of_mem_filter hf))
    rcases hf2 with hf2 | hf2
    · rw [hf2]
      have hd : (decide (("DataModelSchema" : String) = lname)) = false :=
        decide_eq_false hne
      simp [openEntry, List.find?, hd]
    · rw [hf2]
      exact rfl
  have hstep : ∀ acc : PbixMeta, ∀ f ∈ layoutFilesOf [(lname, eL)],
      layoutFileStepAlt
        [("DataModelSchema", ⟨some sTxt, none, ti⟩), (lname, eL)] acc f =
        layoutFileStepAlt [(lname, eL)] acc f := by
    intro acc f hf
    unfold layoutFileStepAlt
    rw [hopen f hf]
  have h4 : ∀ m : PbixMeta,
      tryExtractLayoutAlt
        [("DataModelSchema", ⟨some sTxt, none, ti⟩), (lname, eL)] m =
        tryExtractLayoutAlt [(lname, eL)] m := by
    intro m
    unfold tryExtractLayoutAlt
    rw [hlfs]
    split
    · rfl
    · exact foldl_congr _ _ _ (fun acc x hx => hstep acc x hx) m
  have hchainA : extract_pbix_metadata_alt
      [("DataModelSchema", ⟨some sTxt, none, ti⟩), (lname, eL)] =
      tryExtractLayoutAlt
        [("DataModelSchema", ⟨some sTxt, none, ti⟩), (lname, eL)] emptyMeta := by
    unfold extract_pbix_metadata_alt
    rw [hA1, hA2, hA3]
  have hchainB : extract_pbix_metadata_alt [(lname, eL)] =
      tryExtractLayoutAlt [(lname, eL)] emptyMeta := by
    unfold extract_pbix_metadata_alt
    rw [hB1, hB2, hB3]
  have heq : extract_pbix_metadata_alt
      [("DataModelSchema", ⟨some sTxt, none, ti⟩), (lname, eL)] =
      extract_pbix_metadata_alt [(lname, eL)] := by
    rw [hchainA, hchainB, h4]
  refine ⟨heq, ?_, ?_⟩
  · rw [heq, hchainB, (tryExtractLayoutAlt_frame _ _).1]
    rfl
  · rw [heq, hchainB, (tryExtractLayoutAlt_frame _ _).2]
    rfl

/-- Witness for C1 on the scenario-E package: with the malformed schema
entry present, extraction equals the layout-only extraction, whose
visualizations are populated while tables and relationships are empty. -/
theorem C1_schema_failure_isolated_witness :
    extract_pbix_metadata_alt c1arch =
      extract_pbix_metadata_alt [("Report/Layout.json", c1LayE)] ∧
    (extract_pbix_metadata_alt c1arch).tables = [] ∧
    (extract_pbix_metadata_alt c1arch).relationships = [] ∧
    (extract_pbix_metadata_alt c1arch).visualizations.length = 1 := by
  have h := C1_schema_failure_isolated "Report/Layout.json"
    { decoded := some "\x7bbad", jsonOf := none, textIgnore := "\x7bbad" } c1LayE
    "\x7bbad" rfl rfl (by decide) (by decide) (by decide)
  exact ⟨h.1, h.2.1, h.2.2, rfl⟩

end PbiNl
